import Mathlib

/-!
# event_system: delegates and the keyed event registry

A shallow embedding of `GDelegate.hpp`, `TDelegate.hpp` and `EventSystem.hpp`.

Modelling conventions
* Addresses (`void*`, `TObj*`, `EventListener*`) and member-function pointers are
  natural numbers; two are the same reference exactly when the numbers are equal.
* `typeid(func).hash_code()` depends only on the static type of `func`; a template
  instantiation therefore receives the hash code of its member-function-pointer
  type as an explicit argument `typeHash`.
* The program state outside the delegates and the registry (the fields of the bound
  objects) is a value `w : σ`.  A bound method is a function
  `call objPtr func vargs w = (result, w1)`: the member function `func` run on the
  object at `objPtr` with arguments `vargs`.  Where a bound method may throw, `call`
  gives `Except.error` with the exception instead of the result, next to the state
  the method left.  Bound methods are taken not to re-enter the registry.
* A thrown `bad_delegate_call` is an `Except.error`; the state is returned next to
  it, so that what happened before the throw stays visible.
* `Log().error(..)` diagnostics and the mutexes are not part of the model: every
  function is the single-threaded behaviour of its source.
-/

set_option autoImplicit false

/-! ## Exceptions.hpp -/

/-- The exception class of `Exceptions.hpp`. -/
structure bad_delegate_call where
  _message : String
deriving DecidableEq

/-- Member `what()`: the stored message. -/
def bad_delegate_call.what (e : bad_delegate_call) : String := e._message

/-! ## GDelegate.hpp -/

/-- Generic member function delegate: `_objPtr`, `_func`, `_typeHashCode`. -/
structure GDelegate where
  _objPtr : Nat
  _func : Nat
  _typeHashCode : Nat
deriving DecidableEq

namespace GDelegate

/-- Static `create(objPtr, func)`; `typeHash` is `typeid(func).hash_code()`. -/
def create (objPtr func typeHash : Nat) : GDelegate :=
  { _objPtr := objPtr, _func := func, _typeHashCode := typeHash }

/-- The message `exec` throws with when the type check fails. -/
def typeSafetyMessage : String :=
  "GDelegate: Run-time type-safety check failed. Ensure execution function signature matches underlying member function signature."

/-- Member `exec<TReturn, TObj, VArgs...>(vargs...)`; `typeHash` is the hash code of
the requested type `TReturn(TObj::*)(const VArgs&...)`.  No member is assigned, so
the delegate after the call is the delegate before it. -/
def exec {α ρ σ : Type} (call : Nat → Nat → α → σ → ρ × σ) (self : GDelegate)
    (typeHash : Nat) (vargs : α) (w : σ) : Except bad_delegate_call ρ × σ :=
  if self._typeHashCode ≠ typeHash then
    (Except.error ⟨typeSafetyMessage⟩, w)
  else
    let r := call self._objPtr self._func vargs w
    (Except.ok r.1, r.2)

/-- Member `exec<TReturn, TObj, VArgs...>(vargs...)` for a bound method that may throw:
`call` gives the result of the method or the exception it throws, a `bad_delegate_call`
(`Sum.inl`) or any other exception (`Sum.inr`), and the state the method leaves.  `exec`
has no handler, so the exception leaves `exec`.  No statement of `exec` assigns a
member: the delegate handed back is `self`. -/
def execThrowing {α ρ ε σ : Type}
    (call : Nat → Nat → α → σ → Except (bad_delegate_call ⊕ ε) ρ × σ) (self : GDelegate)
    (typeHash : Nat) (vargs : α) (w : σ) :
    Except (bad_delegate_call ⊕ ε) ρ × GDelegate × σ :=
  if self._typeHashCode ≠ typeHash then
    (Except.error (Sum.inl ⟨typeSafetyMessage⟩), self, w)
  else
    let r := call self._objPtr self._func vargs w
    (r.1, self, r.2)

/-- The `operator==` of the class: object and method only. -/
def eq (self other : GDelegate) : Bool :=
  self._objPtr == other._objPtr && self._func == other._func

/-- The `operator!=` of the class. -/
def ne (self other : GDelegate) : Bool :=
  self._objPtr != other._objPtr || self._func != other._func

/-- Member `isCaller(caller)`. -/
def isCaller (self : GDelegate) (caller : Nat) : Bool :=
  self._objPtr == caller

end GDelegate

/-! ## TDelegate.hpp -/

/-- The members of `TDelegate<TReturn, TObj, VArgs...>` (the mutex left out); `Args` is
the tuple type `std::tuple<VArgs...>`. -/
structure TDelegate (Args : Type) where
  _objPtr : Nat
  _func : Nat
  _primed : Bool
  _params : Args
deriving DecidableEq

namespace TDelegate

/-- The message `exec` throws with when the delegate is not primed. -/
def notPrimedMessage : String :=
  "Execution attempted on a TDelegate that was not primed."

/-- Constructor `TDelegate(objPtr, func)`: not primed, `_params` value-initialised. -/
def construct {Args : Type} [Inhabited Args] (objPtr func : Nat) : TDelegate Args :=
  { _objPtr := objPtr, _func := func, _primed := false, _params := default }

/-- Member `isPrimed()`. -/
def isPrimed {Args : Type} (self : TDelegate Args) : Bool :=
  self._primed

/-- Member `prime(vargs...)`. -/
def prime {Args : Type} (self : TDelegate Args) (vargs : Args) : TDelegate Args :=
  { self with _primed := true, _params := vargs }

/-- Member `exec()`: the result or the exception, the delegate after the call and the
state after the call. -/
def exec {Args ρ σ : Type} (call : Nat → Nat → Args → σ → ρ × σ) (self : TDelegate Args)
    (w : σ) : Except bad_delegate_call ρ × TDelegate Args × σ :=
  if !self._primed then
    (Except.error ⟨notPrimedMessage⟩, self, w)
  else
    let self1 := { self with _primed := false }
    let r := call self1._objPtr self1._func self1._params w
    (Except.ok r.1, self1, r.2)

/-- The call operator `operator()()`. -/
def operatorCall {Args ρ σ : Type} (call : Nat → Nat → Args → σ → ρ × σ)
    (self : TDelegate Args) (w : σ) : Except bad_delegate_call ρ × TDelegate Args × σ :=
  self.exec call w

/-- Member `exec()` for a bound method that may throw: `call` gives the result of the
method or the exception it throws, and the state it leaves.  `exec` has no handler, so
the exception of the method leaves `exec`, after `_primed` was cleared. -/
def execThrowing {Args ρ ε σ : Type} (call : Nat → Nat → Args → σ → Except ε ρ × σ)
    (self : TDelegate Args) (w : σ) :
    Except (bad_delegate_call ⊕ ε) ρ × TDelegate Args × σ :=
  if !self._primed then
    (Except.error (Sum.inl ⟨notPrimedMessage⟩), self, w)
  else
    let self1 := { self with _primed := false }
    let r := call self1._objPtr self1._func self1._params w
    match r.1 with
    | Except.ok v => (Except.ok v, self1, r.2)
    | Except.error e => (Except.error (Sum.inr e), self1, r.2)

/-- The `operator==` of the class: object and method only. -/
def eq {Args : Type} (self other : TDelegate Args) : Bool :=
  self._objPtr == other._objPtr && self._func == other._func

/-- The `operator!=` of the class. -/
def ne {Args : Type} (self other : TDelegate Args) : Bool :=
  self._objPtr != other._objPtr || self._func != other._func

/-- Member `isCaller(caller)`. -/
def isCaller {Args : Type} (self : TDelegate Args) (caller : Nat) : Bool :=
  self._objPtr == caller

/-- A call made on one deferred delegate: `prime(vargs...)` or `exec()`. -/
inductive Op (Args : Type) where
  | prime (vargs : Args)
  | exec
deriving DecidableEq

/-- One call of a sequence made by a single thread on one delegate; a `bad_delegate_call`
thrown by `exec()` is caught by the caller, who goes on with the next call. -/
def step {Args σ : Type} (call : Nat → Nat → Args → σ → Unit × σ)
    (st : TDelegate Args × σ) : Op Args → TDelegate Args × σ
  | Op.prime vargs => (st.1.prime vargs, st.2)
  | Op.exec => (st.1.exec call st.2).2

/-- A sequence of calls on one delegate, from the first to the last. -/
def runOps {Args σ : Type} (call : Nat → Nat → Args → σ → Unit × σ)
    (st : TDelegate Args × σ) (ops : List (Op Args)) : TDelegate Args × σ :=
  ops.foldl (step call) st

/-- The arguments staged by the calls of `prime` of a sequence, in order. -/
def primedArgs {Args : Type} : List (Op Args) → List Args
  | [] => []
  | Op.prime vargs :: rest => vargs :: primedArgs rest
  | Op.exec :: rest => primedArgs rest

/-- The arguments of the calls of `prime` whose next call in the sequence is `exec()`. -/
def primedThenExec {Args : Type} : List (Op Args) → List Args
  | [] => []
  | Op.exec :: rest => primedThenExec rest
  | Op.prime vargs :: rest =>
    match rest with
    | Op.exec :: _ => vargs :: primedThenExec rest
    | _ => primedThenExec rest

end TDelegate

/-! ## The containers used by EventSystem.hpp -/

/-- A value of type `std::shared_ptr<GDelegate>` (never null): the identity of the
control block it shares with its copies, and the delegate it points to. -/
structure SharedPtr where
  ctrl : Nat
  get : GDelegate
deriving DecidableEq

/-- Member `unique()` of a shared pointer: `use_count() == 1`.  The use counts live
in the control blocks, outside the registry; `use_count c` is the count of block
`c` at the time of the call. -/
def SharedPtr.unique (use_count : Nat → Nat) (del : SharedPtr) : Bool :=
  use_count del.ctrl == 1

/-- The erase-remove idiom `v.erase(std::remove_if(v.begin(), v.end(), pred), v.end())`:
the elements on which `pred` is false stay, in their order. -/
def eraseRemoveIf {V : Type} (pred : V → Bool) (v : List V) : List V :=
  v.filter (fun x => !pred x)

namespace StdMap

variable {TKey V : Type} [LinearOrder TKey]

/-- Lookup `m.find(key)` in a `std::map`, kept as a list of entries: the mapped value of
the entry with that key, or `none` for `end()`. -/
def find : List (TKey × V) → TKey → Option V
  | [], _ => none
  | (k, v) :: rest, key => if k = key then some v else find rest key

/-- Assignment `m[key] = v`: overwrites the entry of `key`, or inserts one at the
place the key order gives it. -/
def assign : List (TKey × V) → TKey → V → List (TKey × V)
  | [], key, v => [(key, v)]
  | (k, v0) :: rest, key, v =>
    if k = key then (k, v) :: rest
    else if key < k then (key, v) :: (k, v0) :: rest
    else (k, v0) :: assign rest key v

/-- In-place update `f(m[key])` of the mapped value of a key that is present. -/
def modify : List (TKey × V) → TKey → (V → V) → List (TKey × V)
  | [], _, _ => []
  | (k, v) :: rest, key, f =>
    if k = key then (k, f v) :: rest else (k, v) :: modify rest key f

end StdMap

/-! ## EventSystem.hpp -/

/-- One call of `exec` made by `publish`: the binding, the state before the call, and how
the call ended. -/
structure ExecRecord (σ ε : Type) where
  del : SharedPtr
  before : σ
  result : Except (bad_delegate_call ⊕ ε) Unit

/-- What a call of `publish` leaves.  `result` is the flag returned, or the exception that
leaves `publish`; `state` is the state of the bound objects; `dels` are the bindings of
the key after the loop; `execs` lists in order the calls of `exec` the loop made (a
record kept for the statements, the source keeps none). -/
structure PublishRun (σ ε : Type) where
  result : Except ε Bool
  state : σ
  dels : List SharedPtr
  execs : List (ExecRecord σ ε)

/-- A bound method that returns normally, as one that may throw. -/
def returningCall {α ε σ : Type} (call : Nat → Nat → α → σ → Unit × σ)
    (objPtr func : Nat) (vargs : α) (w : σ) : Except (bad_delegate_call ⊕ ε) Unit × σ :=
  (Except.ok (call objPtr func vargs w).1, (call objPtr func vargs w).2)

/-- The members of `EventSystem<TKey>` (the mutex left out). -/
structure EventSystem (TKey : Type) where
  _name : String
  _eventBindings : List (TKey × List SharedPtr)

namespace EventSystem

variable {TKey : Type} [LinearOrder TKey]

/-- Constructor `EventSystem(name)`: no key is bound. -/
def construct (name : String) : EventSystem TKey :=
  { _name := name, _eventBindings := [] }

/-- The ordered bindings stored under `key`; the empty list when the key has no entry. -/
def bindings (self : EventSystem TKey) (key : TKey) : List SharedPtr :=
  (StdMap.find self._eventBindings key).getD []

/-- The loop `for (auto& del : _eventBindings.at(key))` of `publish`, from the binding
`del` on, with `succ` and the state as they stand.  A binding that is `unique()` clears
`succ`.  Any other is run by `exec`: a `bad_delegate_call` that leaves `exec`, thrown by
the type check or by the bound method, is caught and clears `succ`; any other exception
is not caught and leaves the loop and `publish`.  The loop holds each binding by
reference; `unique()` is a `const` member and the delegate `exec` hands back is put
where it was. -/
def publishLoop {α ε σ : Type}
    (call : Nat → Nat → α → σ → Except (bad_delegate_call ⊕ ε) Unit × σ)
    (use_count : Nat → Nat) (typeHash : Nat) (vargs : α) :
    List SharedPtr → Bool → σ → PublishRun σ ε
  | [], succ, w => { result := Except.ok succ, state := w, dels := [], execs := [] }
  | del :: rest, succ, w =>
    if del.unique use_count then
      let run := publishLoop call use_count typeHash vargs rest false w
      { run with dels := del :: run.dels }
    else
      match del.get.execThrowing call typeHash vargs w with
      | (Except.ok u, del1, w1) =>
        let run := publishLoop call use_count typeHash vargs rest succ w1
        { run with
          dels := { del with get := del1 } :: run.dels,
          execs := { del := del, before := w, result := Except.ok u } :: run.execs }
      | (Except.error (Sum.inl e), del1, w1) =>
        let run := publishLoop call use_count typeHash vargs rest false w1
        { run with
          dels := { del with get := del1 } :: run.dels,
          execs := { del := del, before := w, result := Except.error (Sum.inl e) }
            :: run.execs }
      | (Except.error (Sum.inr e), del1, w1) =>
        { result := Except.error e, state := w1, dels := { del with get := del1 } :: rest,
          execs := [{ del := del, before := w, result := Except.error (Sum.inr e) }] }

/-- Member `publish<VArgs...>(key, vargs...)`; `typeHash` is the hash code of
`void(EventListener::*)(const VArgs&...)`.  The map is read with `find` and `at`: a key
without entry gives `true` at once and no entry is made for it.  Next to what the call
leaves stands the registry after the call. -/
def publishThrowing {α ε σ : Type}
    (call : Nat → Nat → α → σ → Except (bad_delegate_call ⊕ ε) Unit × σ)
    (use_count : Nat → Nat) (self : EventSystem TKey) (key : TKey) (typeHash : Nat)
    (vargs : α) (w : σ) : PublishRun σ ε × EventSystem TKey :=
  match StdMap.find self._eventBindings key with
  | none => ({ result := Except.ok true, state := w, dels := [], execs := [] }, self)
  | some dels =>
    let run := publishLoop call use_count typeHash vargs dels true w
    (run, { self with
      _eventBindings := StdMap.modify self._eventBindings key (fun _ => run.dels) })

/-- Member `publish<VArgs...>(key, vargs...)` for bound methods that return normally:
`succ` and the state the invoked methods leave. -/
def publish {α σ : Type} (call : Nat → Nat → α → σ → Unit × σ) (use_count : Nat → Nat)
    (self : EventSystem TKey) (key : TKey) (typeHash : Nat) (vargs : α) (w : σ) : Bool × σ :=
  let run : PublishRun σ Empty :=
    (self.publishThrowing (returningCall call) use_count key typeHash vargs w).1
  match run.result with
  | Except.ok succ => (succ, run.state)
  | Except.error e => nomatch e

/-- Member `subscribe(key, delegate_ptr)`: the returned flag and the registry after. -/
def subscribe (self : EventSystem TKey) (key : TKey) (delegate_ptr : SharedPtr) :
    Bool × EventSystem TKey :=
  -- enforce unique keys
  let m1 := if (StdMap.find self._eventBindings key).isNone
    then StdMap.assign self._eventBindings key [] else self._eventBindings
  -- prevent duplicate delegates under the same event key
  let it := ((StdMap.find m1 key).getD []).find? (fun del_ptr => del_ptr.get.eq delegate_ptr.get)
  if it.isNone then
    (true, { self with _eventBindings := StdMap.modify m1 key (fun v => v ++ [delegate_ptr]) })
  else
    (false, { self with _eventBindings := m1 })

/-- Member `unsubscribe(listener)`.  `EventListener.hpp` is not among the sources, so
the hook `listener->pruneBindings()` is the argument `listenerPrune`. -/
def unsubscribe {σ : Type} (listenerPrune : Nat → σ → σ) (self : EventSystem TKey)
    (listener : Nat) (w : σ) : EventSystem TKey × σ :=
  ({ self with _eventBindings := self._eventBindings.map (fun entry =>
      (entry.1, eraseRemoveIf (fun del => del.get.isCaller listener) entry.2)) },
   listenerPrune listener w)

/-- Member `unsubscribe(key, listener)`. -/
def unsubscribeKey {σ : Type} (listenerPrune : Nat → σ → σ) (self : EventSystem TKey)
    (key : TKey) (listener : Nat) (w : σ) : EventSystem TKey × σ :=
  match StdMap.find self._eventBindings key with
  | some _ =>
    let erased := StdMap.modify self._eventBindings key
      (eraseRemoveIf (fun del => del.get.isCaller listener))
    ({ self with _eventBindings := erased }, listenerPrune listener w)
  | none => (self, listenerPrune listener w)

/-- Member `bind(key, self, func)`: `subscribe` of the pointer that the static
`EventListener::bind(self, func)` returns.  `EventListener.hpp` is not among the
sources, so that pointer is the argument `bound`. -/
def bind (self : EventSystem TKey) (key : TKey) (bound : SharedPtr) :
    Bool × EventSystem TKey :=
  self.subscribe key bound

/-- Member `pruneBindings()`: every key loses its `unique()` bindings.  A binding that
is erased was the only pointer to its control block, so erasing it changes the use
count of no other binding, and every test sees the counts of the moment of the call. -/
def pruneBindings (use_count : Nat → Nat) (self : EventSystem TKey) : EventSystem TKey :=
  { self with _eventBindings := self._eventBindings.map (fun entry =>
      (entry.1, eraseRemoveIf (fun del => del.unique use_count) entry.2)) }

/-- Two bindings are the same delegate: same object reference, same method reference. -/
def SameDelegate (a b : SharedPtr) : Prop :=
  a.get._objPtr = b.get._objPtr ∧ a.get._func = b.get._func

/-- No two bindings of the list are the same delegate. -/
def NoEqualPair (l : List SharedPtr) : Prop :=
  l.Pairwise (fun a b => ¬ SameDelegate a b)

end EventSystem

/-- A call a client makes on a registry, with what the registry it leaves depends on.
The use counts `pruneBindings` reads are those of the moment of the call. -/
inductive RegistryCall (TKey : Type) where
  | subscribe (key : TKey) (delegate_ptr : SharedPtr)
  | bind (key : TKey) (bound : SharedPtr)
  | unsubscribe (listener : Nat)
  | unsubscribeKey (key : TKey) (listener : Nat)
  | pruneBindings (use_count : Nat → Nat)
  | publish (key : TKey)

namespace RegistryCall

variable {TKey : Type} [LinearOrder TKey]

/-- The registry a call leaves.  For `publish` it is the registry `publishThrowing` leaves,
which is the registry before the call for every bound-method semantics.  The cleanup
hook of a listener is taken not to call the registry. -/
def apply (self : EventSystem TKey) : RegistryCall TKey → EventSystem TKey
  | subscribe key delegate_ptr => (self.subscribe key delegate_ptr).2
  | bind key bound => (self.bind key bound).2
  | unsubscribe listener => (self.unsubscribe (fun _ (u : Unit) => u) listener ()).1
  | unsubscribeKey key listener =>
    (self.unsubscribeKey (fun _ (u : Unit) => u) key listener ()).1
  | pruneBindings use_count => self.pruneBindings use_count
  | publish _ => self

/-- The registry after a sequence of calls, from the first to the last. -/
def run (self : EventSystem TKey) (calls : List (RegistryCall TKey)) : EventSystem TKey :=
  calls.foldl apply self

end RegistryCall

/-! ## Observing invocations -/

/-- One invocation of a bound method: the object, the method and the arguments. -/
structure Invocation (α : Type) where
  objPtr : Nat
  func : Nat
  vargs : α
deriving DecidableEq

/-- The bound-method semantics that only records each invocation, in order; the state
is the list of invocations made so far. -/
def recordCall {α : Type} (objPtr func : Nat) (vargs : α) (w : List (Invocation α)) :
    Unit × List (Invocation α) :=
  ((), w ++ [{ objPtr := objPtr, func := func, vargs := vargs }])

/-- The bound-method semantics that records each invocation and then ends as
`behaviour objPtr func` says: with a normal return, a `bad_delegate_call` or another
exception. -/
def recordThen {α ε : Type} (behaviour : Nat → Nat → Except (bad_delegate_call ⊕ ε) Unit)
    (objPtr func : Nat) (vargs : α) (w : List (Invocation α)) :
    Except (bad_delegate_call ⊕ ε) Unit × List (Invocation α) :=
  (behaviour objPtr func, w ++ [{ objPtr := objPtr, func := func, vargs := vargs }])

/-! ## Listeners of the tests -/

/-- Modelled from the spec: `SimpleListener::receivedNumbers` (`SimpleListener.hpp` is
not among the sources), the method that adds the published integer to the counter
of the listener it runs on.  The state gives the counter of the listener at each
address; a counter starts at 0. -/
def receivedNumbers (objPtr _func : Nat) (number : Int) (w : Nat → Int) : Unit × (Nat → Int) :=
  ((), fun addr => if addr = objPtr then w addr + number else w addr)

/-- The registry of the test `Subscribe`: listener `a` (at address 100) bound once under
the key `REQ_INC_INT` (key 0), its method being number 1 and its type hash 7. -/
def subscribeTestRegistry : EventSystem Nat :=
  ((EventSystem.construct "EventSystem").subscribe 0
    { ctrl := 1, get := GDelegate.create 100 1 7 }).2

/-- A registry with two listeners under key 0, bound in this order: the listener at
address 100 (control block 1, method 1, type hash 7) and the listener at address 200
(control block 2, method 2, type hash 9: another parameter type). -/
def twoListenerRegistry : EventSystem Nat :=
  (((EventSystem.construct "EventSystem").subscribe 0
    { ctrl := 1, get := GDelegate.create 100 1 7 }).2.subscribe 0
    { ctrl := 2, get := GDelegate.create 200 2 9 }).2

/-- How the methods of the listeners below end: method 5 throws a `bad_delegate_call` (it
runs `exec()` of a deferred delegate that is not primed), method 6 throws another
exception, every other method returns. -/
def methodEnds (_objPtr func : Nat) : Except (bad_delegate_call ⊕ String) Unit :=
  if func = 5 then Except.error (Sum.inl ⟨TDelegate.notPrimedMessage⟩)
  else if func = 6 then Except.error (Sum.inr "std::runtime_error")
  else Except.ok ()

/-- A registry with one listener under key 0: the listener at address 100 (control block
1), bound with its method 5, type hash 7. -/
def badCallRegistry : EventSystem Nat :=
  ((EventSystem.construct "EventSystem").subscribe 0
    { ctrl := 1, get := GDelegate.create 100 5 7 }).2

/-- A registry with two listeners under key 0, bound in this order: the listener at
address 100 (control block 1) with its method 6 and the listener at address 200
(control block 2) with its method 1, both of type hash 7. -/
def runtimeErrorRegistry : EventSystem Nat :=
  (((EventSystem.construct "EventSystem").subscribe 0
    { ctrl := 1, get := GDelegate.create 100 6 7 }).2.subscribe 0
    { ctrl := 2, get := GDelegate.create 200 1 7 }).2

/-- Use counts once the listener at address 100 is destroyed: the registry holds the only
pointer to control block 1, every other block has a second holder. -/
def firstListenerGone : Nat → Nat :=
  fun c => if c = 1 then 1 else 2

/-- Test class `ExampleClass` of `Events_DelegateTest.cpp`; its `int` member is kept as an
integer without bound. -/
structure ExampleClass where
  _data : Int
deriving DecidableEq

namespace ExampleClass

/-- Constructor `ExampleClass()`. -/
def construct : ExampleClass := { _data := 0 }

/-- Member `setAdd(a, b)`. -/
def setAdd (_self : ExampleClass) (a b : Int) : ExampleClass := { _data := a + b }

/-- Member `getData()`. -/
def getData (self : ExampleClass) : Int := self._data

/-- The bound method `&ExampleClass::setAdd` run on the test object, the only object of
the state. -/
def setAddCall (_objPtr _func : Nat) (vargs : Int × Int) (w : ExampleClass) :
    Unit × ExampleClass :=
  ((), w.setAdd vargs.1 vargs.2)

end ExampleClass

/-! ## Lemmas on the map operations -/

namespace StdMap

variable {TKey V : Type} [LinearOrder TKey]

theorem find_assign_self (m : List (TKey × V)) (key : TKey) (v : V) :
    find (assign m key v) key = some v := by
  induction m with
  | nil => simp [assign, find]
  | cons e rest ih =>
    obtain ⟨k, v0⟩ := e
    by_cases h : k = key
    · simp [assign, find, h]
    · by_cases h2 : key < k
      · simp [assign, find, h, h2]
      · simp [assign, find, h, h2, ih]

theorem find_assign_other (m : List (TKey × V)) (key k2 : TKey) (v : V) (hne : k2 ≠ key) :
    find (assign m key v) k2 = find m k2 := by
  induction m with
  | nil => simp [assign, find, Ne.symm hne]
  | cons e rest ih =>
    obtain ⟨k, v0⟩ := e
    by_cases h : k = key
    · subst h
      simp [assign, find, Ne.symm hne]
    · by_cases h2 : key < k
      · simp [assign, find, h, h2, Ne.symm hne]
      · by_cases h3 : k = k2
        · subst h3
          simp [assign, find, h, h2]
        · simp [assign, find, h, h2, h3, ih]

theorem find_modify (m : List (TKey × V)) (key k2 : TKey) (f : V → V) :
    find (modify m key f) k2 = if k2 = key then (find m k2).map f else find m k2 := by
  induction m with
  | nil => simp [modify, find]
  | cons e rest ih =>
    obtain ⟨k, v⟩ := e
    by_cases h : k = key
    · subst h
      by_cases h3 : k = k2
      · subst h3
        simp [modify, find]
      · simp [modify, find, h3, Ne.symm h3]
    · by_cases h3 : k = k2
      · subst h3
        simp [modify, find, h]
      · simp [modify, find, h, h3, ih]

theorem modify_const_self (m : List (TKey × V)) (key : TKey) (v : V)
    (h : find m key = some v) : modify m key (fun _ => v) = m := by
  induction m with
  | nil => simp [modify]
  | cons e rest ih =>
    obtain ⟨k, v0⟩ := e
    by_cases hk : k = key
    · simp only [find, hk, if_true, Option.some.injEq] at h
      simp [modify, hk, h]
    · simp only [find, hk, if_false] at h
      simp [modify, hk, ih h]

theorem find_map_snd (m : List (TKey × V)) (g : V → V) (k2 : TKey) :
    find (m.map (fun entry => (entry.1, g entry.2))) k2 = (find m k2).map g := by
  induction m with
  | nil => simp [find]
  | cons e rest ih =>
    obtain ⟨k, v⟩ := e
    by_cases h3 : k = k2
    · simp [find, h3]
    · simp [find, h3, ih]

end StdMap

namespace EventSystem

variable {TKey : Type} [LinearOrder TKey]

theorem find_eq_some_bindings (self : EventSystem TKey) (key : TKey) (v : List SharedPtr)
    (h : StdMap.find self._eventBindings key = some v) : self.bindings key = v := by
  simp [bindings, h]

theorem bindings_eq_nil_of_find_none (self : EventSystem TKey) (key : TKey)
    (h : StdMap.find self._eventBindings key = none) : self.bindings key = [] := by
  simp [bindings, h]

theorem subscribe_of_no_equal (self : EventSystem TKey) (key : TKey) (d : SharedPtr)
    (hno : ∀ b ∈ self.bindings key,
      ¬ (b.get._objPtr = d.get._objPtr ∧ b.get._func = d.get._func)) :
    (self.subscribe key d).1 = true ∧
    StdMap.find (self.subscribe key d).2._eventBindings key
      = some (self.bindings key ++ [d]) := by
  have hnone : ∀ v : List SharedPtr, (∀ b ∈ v,
      ¬ (b.get._objPtr = d.get._objPtr ∧ b.get._func = d.get._func)) →
      v.find? (fun del_ptr => del_ptr.get.eq d.get) = none := by
    intro v hv
    rw [List.find?_eq_none]
    intro b hb
    have := hv b hb
    simpa [GDelegate.eq] using this
  cases hf : StdMap.find self._eventBindings key with
  | none =>
    simp [subscribe, hf, StdMap.find_assign_self, StdMap.find_modify, bindings]
  | some v =>
    have hb : self.bindings key = v := find_eq_some_bindings self key v hf
    rw [hb] at hno
    simp [subscribe, hf, hnone v hno, StdMap.find_modify, bindings]

theorem subscribe_of_equal (self : EventSystem TKey) (key : TKey) (d : SharedPtr)
    (hex : ∃ b ∈ self.bindings key,
      b.get._objPtr = d.get._objPtr ∧ b.get._func = d.get._func) :
    (self.subscribe key d).1 = false ∧ (self.subscribe key d).2 = self := by
  obtain ⟨b, hb, hobj, hfun⟩ := hex
  cases hf : StdMap.find self._eventBindings key with
  | none =>
    rw [bindings_eq_nil_of_find_none self key hf] at hb
    simp at hb
  | some v =>
    rw [find_eq_some_bindings self key v hf] at hb
    have hsome : (v.find? (fun del_ptr => del_ptr.get.eq d.get)).isNone = false := by
      cases hfd : v.find? (fun del_ptr => del_ptr.get.eq d.get) with
      | none =>
        rw [List.find?_eq_none] at hfd
        have := hfd b hb
        simp [GDelegate.eq, hobj, hfun] at this
      | some _ => rfl
    simp [subscribe, hf, hsome]

/-- Claim C1.  When no binding under `key` has both the object and the method of
`d`, `subscribe` returns true and the list under `key` is the old list followed by
`d`; when some binding has, `subscribe` returns false and the registry is the one
before the call. -/
theorem subscribe_appends_or_rejects (self : EventSystem TKey) (key : TKey) (d : SharedPtr) :
    ((∀ b ∈ self.bindings key,
        ¬ (b.get._objPtr = d.get._objPtr ∧ b.get._func = d.get._func)) →
      (self.subscribe key d).1 = true ∧
      StdMap.find (self.subscribe key d).2._eventBindings key
        = some (self.bindings key ++ [d])) ∧
    ((∃ b ∈ self.bindings key,
        b.get._objPtr = d.get._objPtr ∧ b.get._func = d.get._func) →
      (self.subscribe key d).1 = false ∧ (self.subscribe key d).2 = self) :=
  ⟨subscribe_of_no_equal self key d, subscribe_of_equal self key d⟩

end EventSystem

namespace EventSystem

variable {TKey : Type} [LinearOrder TKey]

theorem execThrowing_this {α ρ ε σ : Type}
    (call : Nat → Nat → α → σ → Except (bad_delegate_call ⊕ ε) ρ × σ) (d : GDelegate)
    (typeHash : Nat) (vargs : α) (w : σ) :
    (d.execThrowing call typeHash vargs w).2.1 = d := by
  unfold GDelegate.execThrowing
  split_ifs <;> rfl

theorem execThrowing_of_match {α ρ ε σ : Type}
    (call : Nat → Nat → α → σ → Except (bad_delegate_call ⊕ ε) ρ × σ) (d : GDelegate)
    (typeHash : Nat) (vargs : α) (w : σ) (h : d._typeHashCode = typeHash) :
    d.execThrowing call typeHash vargs w
      = ((call d._objPtr d._func vargs w).1, d, (call d._objPtr d._func vargs w).2) := by
  simp [GDelegate.execThrowing, h]

theorem execThrowing_of_mismatch {α ρ ε σ : Type}
    (call : Nat → Nat → α → σ → Except (bad_delegate_call ⊕ ε) ρ × σ) (d : GDelegate)
    (typeHash : Nat) (vargs : α) (w : σ) (h : d._typeHashCode ≠ typeHash) :
    d.execThrowing call typeHash vargs w
      = (Except.error (Sum.inl ⟨GDelegate.typeSafetyMessage⟩), d, w) := by
  simp [GDelegate.execThrowing, h]

theorem publishLoop_cons_unique {α ε σ : Type}
    (call : Nat → Nat → α → σ → Except (bad_delegate_call ⊕ ε) Unit × σ)
    (use_count : Nat → Nat) (typeHash : Nat) (vargs : α) (del : SharedPtr)
    (rest : List SharedPtr) (succ : Bool) (w : σ) (hu : del.unique use_count = true) :
    publishLoop call use_count typeHash vargs (del :: rest) succ w
      = { result := (publishLoop call use_count typeHash vargs rest false w).result,
          state := (publishLoop call use_count typeHash vargs rest false w).state,
          dels := del :: (publishLoop call use_count typeHash vargs rest false w).dels,
          execs := (publishLoop call use_count typeHash vargs rest false w).execs } := by
  simp [publishLoop, hu]

theorem publishLoop_cons_ok {α ε σ : Type}
    (call : Nat → Nat → α → σ → Except (bad_delegate_call ⊕ ε) Unit × σ)
    (use_count : Nat → Nat) (typeHash : Nat) (vargs : α) (del : SharedPtr)
    (rest : List SharedPtr) (succ : Bool) (w : σ) (hu : del.unique use_count = false)
    (u : Unit) (h : (del.get.execThrowing call typeHash vargs w).1 = Except.ok u) :
    publishLoop call use_count typeHash vargs (del :: rest) succ w
      = { result := (publishLoop call use_count typeHash vargs rest succ
            (del.get.execThrowing call typeHash vargs w).2.2).result,
          state := (publishLoop call use_count typeHash vargs rest succ
            (del.get.execThrowing call typeHash vargs w).2.2).state,
          dels := del :: (publishLoop call use_count typeHash vargs rest succ
            (del.get.execThrowing call typeHash vargs w).2.2).dels,
          execs := { del := del, before := w, result := Except.ok u }
            :: (publishLoop call use_count typeHash vargs rest succ
              (del.get.execThrowing call typeHash vargs w).2.2).execs } := by
  have ht := execThrowing_this call del.get typeHash vargs w
  rcases hr : del.get.execThrowing call typeHash vargs w with ⟨r, d1, w1⟩
  rw [hr] at h ht
  simp only at h ht
  subst h ht
  simp [publishLoop, hu, hr]

theorem publishLoop_cons_caught {α ε σ : Type}
    (call : Nat → Nat → α → σ → Except (bad_delegate_call ⊕ ε) Unit × σ)
    (use_count : Nat → Nat) (typeHash : Nat) (vargs : α) (del : SharedPtr)
    (rest : List SharedPtr) (succ : Bool) (w : σ) (hu : del.unique use_count = false)
    (e : bad_delegate_call)
    (h : (del.get.execThrowing call typeHash vargs w).1 = Except.error (Sum.inl e)) :
    publishLoop call use_count typeHash vargs (del :: rest) succ w
      = { result := (publishLoop call use_count typeHash vargs rest false
            (del.get.execThrowing call typeHash vargs w).2.2).result,
          state := (publishLoop call use_count typeHash vargs rest false
            (del.get.execThrowing call typeHash vargs w).2.2).state,
          dels := del :: (publishLoop call use_count typeHash vargs rest false
            (del.get.execThrowing call typeHash vargs w).2.2).dels,
          execs := { del := del, before := w, result := Except.error (Sum.inl e) }
            :: (publishLoop call use_count typeHash vargs rest false
              (del.get.execThrowing call typeHash vargs w).2.2).execs } := by
  have ht := execThrowing_this call del.get typeHash vargs w
  rcases hr : del.get.execThrowing call typeHash vargs w with ⟨r, d1, w1⟩
  rw [hr] at h ht
  simp only at h ht
  subst h ht
  simp [publishLoop, hu, hr]

theorem publishLoop_cons_thrown {α ε σ : Type}
    (call : Nat → Nat → α → σ → Except (bad_delegate_call ⊕ ε) Unit × σ)
    (use_count : Nat → Nat) (typeHash : Nat) (vargs : α) (del : SharedPtr)
    (rest : List SharedPtr) (succ : Bool) (w : σ) (hu : del.unique use_count = false)
    (e : ε)
    (h : (del.get.execThrowing call typeHash vargs w).1 = Except.error (Sum.inr e)) :
    publishLoop call use_count typeHash vargs (del :: rest) succ w
      = { result := Except.error e,
          state := (del.get.execThrowing call typeHash vargs w).2.2,
          dels := del :: rest,
          execs := [{ del := del, before := w, result := Except.error (Sum.inr e) }] } := by
  have ht := execThrowing_this call del.get typeHash vargs w
  rcases hr : del.get.execThrowing call typeHash vargs w with ⟨r, d1, w1⟩
  rw [hr] at h ht
  simp only at h ht
  subst h ht
  simp [publishLoop, hu, hr]

theorem publishLoop_dels {α ε σ : Type}
    (call : Nat → Nat → α → σ → Except (bad_delegate_call ⊕ ε) Unit × σ)
    (use_count : Nat → Nat) (typeHash : Nat) (vargs : α) (dels : List SharedPtr)
    (succ : Bool) (w : σ) :
    (publishLoop call use_count typeHash vargs dels succ w).dels = dels := by
  induction dels generalizing succ w with
  | nil => simp [publishLoop]
  | cons del rest ih =>
    by_cases hu : del.unique use_count = true
    · rw [publishLoop_cons_unique call use_count typeHash vargs del rest succ w hu]
      simp [ih]
    · have hu2 : del.unique use_count = false := by simpa using hu
      rcases hr : (del.get.execThrowing call typeHash vargs w).1 with e | u
      · cases e with
        | inl e =>
          rw [publishLoop_cons_caught call use_count typeHash vargs del rest succ w hu2 e hr]
          simp [ih]
        | inr e =>
          rw [publishLoop_cons_thrown call use_count typeHash vargs del rest succ w hu2 e hr]
      · rw [publishLoop_cons_ok call use_count typeHash vargs del rest succ w hu2 u hr]
        simp [ih]

theorem publishLoop_flag {α ε σ : Type}
    (call : Nat → Nat → α → σ → Except (bad_delegate_call ⊕ ε) Unit × σ)
    (use_count : Nat → Nat) (typeHash : Nat) (vargs : α) (dels : List SharedPtr)
    (succ : Bool) (w : σ) (flag : Bool)
    (h : (publishLoop call use_count typeHash vargs dels succ w).result = Except.ok flag) :
    flag = true ↔ succ = true ∧ (∀ b ∈ dels, b.unique use_count = false) ∧
      ∀ x ∈ (publishLoop call use_count typeHash vargs dels succ w).execs,
        ∀ e, x.result ≠ Except.error (Sum.inl e) := by
  induction dels generalizing succ w with
  | nil =>
    simp only [publishLoop, Except.ok.injEq] at h
    simp [publishLoop, h]
  | cons del rest ih =>
    by_cases hu : del.unique use_count = true
    · rw [publishLoop_cons_unique call use_count typeHash vargs del rest succ w hu] at h ⊢
      constructor
      · intro hflag
        exact absurd ((ih false w h).1 hflag).1 (by simp)
      · rintro ⟨_, hb, _⟩
        have := hb del (List.mem_cons_self _ _)
        rw [hu] at this
        simp at this
    · have hu2 : del.unique use_count = false := by simpa using hu
      rcases hr : (del.get.execThrowing call typeHash vargs w).1 with e | u
      · cases e with
        | inl e =>
          rw [publishLoop_cons_caught call use_count typeHash vargs del rest succ w hu2 e hr]
            at h ⊢
          constructor
          · intro hflag
            exact absurd ((ih false _ h).1 hflag).1 (by simp)
          · rintro ⟨_, _, hx⟩
            exact absurd rfl (hx _ (List.mem_cons_self _ _) e)
        | inr e =>
          rw [publishLoop_cons_thrown call use_count typeHash vargs del rest succ w hu2 e hr]
            at h
          simp at h
      · rw [publishLoop_cons_ok call use_count typeHash vargs del rest succ w hu2 u hr] at h ⊢
        have := ih succ _ h
        rw [this]
        simp [hu2]

theorem publishLoop_execs {α ε σ : Type}
    (call : Nat → Nat → α → σ → Except (bad_delegate_call ⊕ ε) Unit × σ)
    (use_count : Nat → Nat) (typeHash : Nat) (vargs : α) (dels : List SharedPtr)
    (succ : Bool) (w : σ) :
    ∀ x ∈ (publishLoop call use_count typeHash vargs dels succ w).execs,
      x.del ∈ dels ∧ x.del.unique use_count = false ∧
      (x.del.get.execThrowing call typeHash vargs x.before).1 = x.result := by
  induction dels generalizing succ w with
  | nil => simp [publishLoop]
  | cons del rest ih =>
    by_cases hu : del.unique use_count = true
    · rw [publishLoop_cons_unique call use_count typeHash vargs del rest succ w hu]
      intro x hx
      have := ih false w x hx
      exact ⟨List.mem_cons_of_mem _ this.1, this.2⟩
    · have hu2 : del.unique use_count = false := by simpa using hu
      rcases hr : (del.get.execThrowing call typeHash vargs w).1 with e | u
      · cases e with
        | inl e =>
          rw [publishLoop_cons_caught call use_count typeHash vargs del rest succ w hu2 e hr]
          intro x hx
          rcases List.mem_cons.1 hx with rfl | hx
          · exact ⟨List.mem_cons_self _ _, hu2, hr⟩
          · have := ih false _ x hx
            exact ⟨List.mem_cons_of_mem _ this.1, this.2⟩
        | inr e =>
          rw [publishLoop_cons_thrown call use_count typeHash vargs del rest succ w hu2 e hr]
          intro x hx
          rcases List.mem_singleton.1 hx with rfl
          exact ⟨List.mem_cons_self _ _, hu2, hr⟩
      · rw [publishLoop_cons_ok call use_count typeHash vargs del rest succ w hu2 u hr]
        intro x hx
        rcases List.mem_cons.1 hx with rfl | hx
        · exact ⟨List.mem_cons_self _ _, hu2, hr⟩
        · have := ih succ _ x hx
          exact ⟨List.mem_cons_of_mem _ this.1, this.2⟩

theorem publishLoop_before {α ε σ : Type}
    (call : Nat → Nat → α → σ → Except (bad_delegate_call ⊕ ε) Unit × σ)
    (use_count : Nat → Nat) (typeHash : Nat) (vargs : α) (dels : List SharedPtr)
    (succ : Bool) (w : σ) (pre post : List (ExecRecord σ ε)) (x : ExecRecord σ ε)
    (h : (publishLoop call use_count typeHash vargs dels succ w).execs = pre ++ x :: post) :
    x.before = pre.foldl
      (fun s y => (y.del.get.execThrowing call typeHash vargs s).2.2) w := by
  induction dels generalizing succ w pre with
  | nil =>
    simp [publishLoop] at h
  | cons del rest ih =>
    by_cases hu : del.unique use_count = true
    · rw [publishLoop_cons_unique call use_count typeHash vargs del rest succ w hu] at h
      exact ih false w pre h
    · have hu2 : del.unique use_count = false := by simpa using hu
      have hstep : ∀ (run : PublishRun σ ε) (r : Except (bad_delegate_call ⊕ ε) Unit),
          ({ del := del, before := w, result := r } : ExecRecord σ ε) :: run.execs
            = pre ++ x :: post →
          (∀ pre2, run.execs = pre2 ++ x :: post → x.before = pre2.foldl
            (fun s y => (y.del.get.execThrowing call typeHash vargs s).2.2)
            (del.get.execThrowing call typeHash vargs w).2.2) →
          x.before = pre.foldl
            (fun s y => (y.del.get.execThrowing call typeHash vargs s).2.2) w := by
        intro run r hcons hrec
        cases pre with
        | nil =>
          simp only [List.nil_append, List.cons.injEq] at hcons
          rw [← hcons.1]
          rfl
        | cons p pre2 =>
          simp only [List.cons_append, List.cons.injEq] at hcons
          rw [List.foldl_cons, ← hcons.1]
          exact hrec pre2 hcons.2
      rcases hr : (del.get.execThrowing call typeHash vargs w).1 with e | u
      · cases e with
        | inl e =>
          rw [publishLoop_cons_caught call use_count typeHash vargs del rest succ w hu2 e hr]
            at h
          exact hstep _ _ h (fun pre2 h2 => ih false _ pre2 h2)
        | inr e =>
          rw [publishLoop_cons_thrown call use_count typeHash vargs del rest succ w hu2 e hr]
            at h
          cases pre with
          | nil =>
            simp only [List.nil_append, List.cons.injEq] at h
            rw [← h.1]
            rfl
          | cons p pre2 =>
            simp only [List.cons_append, List.cons.injEq] at h
            have := h.2
            simp at this
      · rw [publishLoop_cons_ok call use_count typeHash vargs del rest succ w hu2 u hr] at h
        exact hstep _ _ h (fun pre2 h2 => ih succ _ pre2 h2)

theorem publishLoop_execs_map {α ε σ : Type}
    (call : Nat → Nat → α → σ → Except (bad_delegate_call ⊕ ε) Unit × σ)
    (use_count : Nat → Nat) (typeHash : Nat) (vargs : α) (dels : List SharedPtr)
    (succ : Bool) (w : σ) (flag : Bool)
    (h : (publishLoop call use_count typeHash vargs dels succ w).result = Except.ok flag) :
    (publishLoop call use_count typeHash vargs dels succ w).execs.map (fun x => x.del)
      = dels.filter (fun b => !b.unique use_count) := by
  induction dels generalizing succ w with
  | nil => simp [publishLoop]
  | cons del rest ih =>
    by_cases hu : del.unique use_count = true
    · rw [publishLoop_cons_unique call use_count typeHash vargs del rest succ w hu] at h ⊢
      simp [List.filter_cons, hu, ih false w h]
    · have hu2 : del.unique use_count = false := by simpa using hu
      rcases hr : (del.get.execThrowing call typeHash vargs w).1 with e | u
      · cases e with
        | inl e =>
          rw [publishLoop_cons_caught call use_count typeHash vargs del rest succ w hu2 e hr]
            at h ⊢
          simp [List.filter_cons, hu2, ih false _ h]
        | inr e =>
          rw [publishLoop_cons_thrown call use_count typeHash vargs del rest succ w hu2 e hr]
            at h
          simp at h
      · rw [publishLoop_cons_ok call use_count typeHash vargs del rest succ w hu2 u hr] at h ⊢
        simp [List.filter_cons, hu2, ih succ _ h]

theorem publishLoop_returns {α ε σ : Type}
    (call : Nat → Nat → α → σ → Except (bad_delegate_call ⊕ ε) Unit × σ)
    (use_count : Nat → Nat) (typeHash : Nat) (vargs : α) (dels : List SharedPtr)
    (succ : Bool) (w : σ)
    (hno : ∀ objPtr func w1 e, (call objPtr func vargs w1).1 ≠ Except.error (Sum.inr e)) :
    ∃ flag, (publishLoop call use_count typeHash vargs dels succ w).result = Except.ok flag := by
  induction dels generalizing succ w with
  | nil => exact ⟨succ, by simp [publishLoop]⟩
  | cons del rest ih =>
    by_cases hu : del.unique use_count = true
    · rw [publishLoop_cons_unique call use_count typeHash vargs del rest succ w hu]
      exact ih false w
    · have hu2 : del.unique use_count = false := by simpa using hu
      rcases hr : (del.get.execThrowing call typeHash vargs w).1 with e | u
      · cases e with
        | inl e =>
          rw [publishLoop_cons_caught call use_count typeHash vargs del rest succ w hu2 e hr]
          exact ih false _
        | inr e =>
          exfalso
          by_cases ht : del.get._typeHashCode = typeHash
          · rw [execThrowing_of_match call del.get typeHash vargs w ht] at hr
            exact hno _ _ _ e hr
          · rw [execThrowing_of_mismatch call del.get typeHash vargs w ht] at hr
            simp at hr
      · rw [publishLoop_cons_ok call use_count typeHash vargs del rest succ w hu2 u hr]
        exact ih succ _

theorem publishLoop_state {α ε σ : Type}
    (call : Nat → Nat → α → σ → Except (bad_delegate_call ⊕ ε) Unit × σ)
    (use_count : Nat → Nat) (typeHash : Nat) (vargs : α) (dels : List SharedPtr)
    (succ : Bool) (w : σ) :
    ∃ invoked rest : List SharedPtr,
      invoked ++ rest
        = dels.filter (fun b => !b.unique use_count && b.get._typeHashCode == typeHash) ∧
      (publishLoop call use_count typeHash vargs dels succ w).state
        = invoked.foldl (fun w1 b => (call b.get._objPtr b.get._func vargs w1).2) w ∧
      (∀ flag, (publishLoop call use_count typeHash vargs dels succ w).result = Except.ok flag →
        rest = []) := by
  induction dels generalizing succ w with
  | nil => exact ⟨[], [], by simp [publishLoop]⟩
  | cons del rest ih =>
    by_cases hu : del.unique use_count = true
    · rw [publishLoop_cons_unique call use_count typeHash vargs del rest succ w hu]
      obtain ⟨inv, rst, h1, h2, h3⟩ := ih false w
      exact ⟨inv, rst, by simp [List.filter_cons, hu, h1], h2, h3⟩
    · have hu2 : del.unique use_count = false := by simpa using hu
      by_cases ht : del.get._typeHashCode = typeHash
      · have hex := execThrowing_of_match call del.get typeHash vargs w ht
        have hw : (del.get.execThrowing call typeHash vargs w).2.2
            = (call del.get._objPtr del.get._func vargs w).2 := by rw [hex]
        rcases hr : (del.get.execThrowing call typeHash vargs w).1 with e | u
        · cases e with
          | inl e =>
            rw [publishLoop_cons_caught call use_count typeHash vargs del rest succ w hu2 e hr]
            obtain ⟨inv, rst, h1, h2, h3⟩ := ih false (del.get.execThrowing call typeHash vargs w).2.2
            refine ⟨del :: inv, rst, by simp [List.filter_cons, hu2, ht, h1], ?_, h3⟩
            rw [List.foldl_cons, ← hw]
            exact h2
          | inr e =>
            rw [publishLoop_cons_thrown call use_count typeHash vargs del rest succ w hu2 e hr]
            refine ⟨[del], rest.filter
              (fun b => !b.unique use_count && b.get._typeHashCode == typeHash),
              by simp [List.filter_cons, hu2, ht], ?_, ?_⟩
            · simp [hw]
            · intro flag hflag
              simp at hflag
        · rw [publishLoop_cons_ok call use_count typeHash vargs del rest succ w hu2 u hr]
          obtain ⟨inv, rst, h1, h2, h3⟩ := ih succ (del.get.execThrowing call typeHash vargs w).2.2
          refine ⟨del :: inv, rst, by simp [List.filter_cons, hu2, ht, h1], ?_, h3⟩
          rw [List.foldl_cons, ← hw]
          exact h2
      · have hex := execThrowing_of_mismatch call del.get typeHash vargs w ht
        have hr : (del.get.execThrowing call typeHash vargs w).1
            = Except.error (Sum.inl ⟨GDelegate.typeSafetyMessage⟩) := by rw [hex]
        rw [publishLoop_cons_caught call use_count typeHash vargs del rest succ w hu2 _ hr]
        have hw : (del.get.execThrowing call typeHash vargs w).2.2 = w := by rw [hex]
        rw [hw]
        obtain ⟨inv, rst, h1, h2, h3⟩ := ih false w
        exact ⟨inv, rst, by simp [List.filter_cons, hu2, ht, h1], h2, h3⟩

theorem publishLoop_returningCall {α σ : Type} (ε : Type) (call : Nat → Nat → α → σ → Unit × σ)
    (use_count : Nat → Nat) (typeHash : Nat) (vargs : α) (dels : List SharedPtr)
    (succ : Bool) (w : σ) :
    (publishLoop (returningCall call : Nat → Nat → α → σ →
        Except (bad_delegate_call ⊕ ε) Unit × σ) use_count typeHash vargs dels succ w).result
      = Except.ok (succ && dels.all
          (fun b => !b.unique use_count && b.get._typeHashCode == typeHash)) ∧
    (publishLoop (returningCall call : Nat → Nat → α → σ →
        Except (bad_delegate_call ⊕ ε) Unit × σ) use_count typeHash vargs dels succ w).state
      = (dels.filter (fun b => !b.unique use_count && b.get._typeHashCode == typeHash)).foldl
          (fun w1 b => (call b.get._objPtr b.get._func vargs w1).2) w := by
  induction dels generalizing succ w with
  | nil => simp [publishLoop]
  | cons del rest ih =>
    by_cases hu : del.unique use_count = true
    · rw [publishLoop_cons_unique _ use_count typeHash vargs del rest succ w hu]
      simp [List.filter_cons, hu, ih false w]
    · have hu2 : del.unique use_count = false := by simpa using hu
      by_cases ht : del.get._typeHashCode = typeHash
      · have hex := execThrowing_of_match (returningCall call : Nat → Nat → α → σ →
          Except (bad_delegate_call ⊕ ε) Unit × σ) del.get typeHash vargs w ht
        have hr : (del.get.execThrowing (returningCall call : Nat → Nat → α → σ →
            Except (bad_delegate_call ⊕ ε) Unit × σ) typeHash vargs w).1
            = Except.ok (call del.get._objPtr del.get._func vargs w).1 := by
          rw [hex]; rfl
        rw [publishLoop_cons_ok _ use_count typeHash vargs del rest succ w hu2 _ hr]
        simp only [hex]
        simp [List.filter_cons, hu2, ht, ih succ, returningCall]
      · have hex := execThrowing_of_mismatch (returningCall call : Nat → Nat → α → σ →
          Except (bad_delegate_call ⊕ ε) Unit × σ) del.get typeHash vargs w ht
        have hr : (del.get.execThrowing (returningCall call : Nat → Nat → α → σ →
            Except (bad_delegate_call ⊕ ε) Unit × σ) typeHash vargs w).1
            = Except.error (Sum.inl ⟨GDelegate.typeSafetyMessage⟩) := by rw [hex]
        rw [publishLoop_cons_caught _ use_count typeHash vargs del rest succ w hu2 _ hr]
        simp only [hex]
        simp [List.filter_cons, hu2, ht, ih false]

theorem publishThrowing_fst {α ε σ : Type}
    (call : Nat → Nat → α → σ → Except (bad_delegate_call ⊕ ε) Unit × σ)
    (use_count : Nat → Nat) (self : EventSystem TKey) (key : TKey) (typeHash : Nat)
    (vargs : α) (w : σ) :
    (self.publishThrowing call use_count key typeHash vargs w).1
      = publishLoop call use_count typeHash vargs (self.bindings key) true w := by
  unfold publishThrowing bindings
  cases StdMap.find self._eventBindings key with
  | none => simp [publishLoop]
  | some dels => simp

theorem publish_fst {α σ : Type} (call : Nat → Nat → α → σ → Unit × σ)
    (use_count : Nat → Nat) (self : EventSystem TKey) (key : TKey) (typeHash : Nat)
    (vargs : α) (w : σ) :
    (self.publish call use_count key typeHash vargs w).1
      = (self.bindings key).all
          (fun b => !b.unique use_count && b.get._typeHashCode == typeHash) := by
  have h := (publishLoop_returningCall Empty call use_count typeHash vargs
    (self.bindings key) true w).1
  unfold publish
  simp only [publishThrowing_fst]
  split
  · rename_i succ hs
    rw [h] at hs
    simp only [Except.ok.injEq, Bool.true_and] at hs
    exact hs.symm
  · rename_i e _
    exact nomatch e

theorem publish_snd {α σ : Type} (call : Nat → Nat → α → σ → Unit × σ)
    (use_count : Nat → Nat) (self : EventSystem TKey) (key : TKey) (typeHash : Nat)
    (vargs : α) (w : σ) :
    (self.publish call use_count key typeHash vargs w).2
      = ((self.bindings key).filter
          (fun b => !b.unique use_count && b.get._typeHashCode == typeHash)).foldl
          (fun w1 b => (call b.get._objPtr b.get._func vargs w1).2) w := by
  have h := (publishLoop_returningCall Empty call use_count typeHash vargs
    (self.bindings key) true w).2
  unfold publish
  simp only [publishThrowing_fst]
  split
  · exact h
  · rename_i e _
    exact nomatch e

theorem publishThrowing_snd {α ε σ : Type}
    (call : Nat → Nat → α → σ → Except (bad_delegate_call ⊕ ε) Unit × σ)
    (use_count : Nat → Nat) (self : EventSystem TKey) (key : TKey) (typeHash : Nat)
    (vargs : α) (w : σ) :
    (self.publishThrowing call use_count key typeHash vargs w).2 = self := by
  unfold publishThrowing
  cases hf : StdMap.find self._eventBindings key with
  | none => rfl
  | some dels =>
    simp only [publishLoop_dels]
    rw [StdMap.modify_const_self self._eventBindings key dels hf]

theorem foldl_recordCall {α : Type} (vargs : α) (l : List SharedPtr)
    (acc : List (Invocation α)) :
    l.foldl (fun w1 b => (recordCall b.get._objPtr b.get._func vargs w1).2) acc
      = acc ++ l.map
        (fun b => { objPtr := b.get._objPtr, func := b.get._func, vargs := vargs }) := by
  induction l generalizing acc with
  | nil => simp
  | cons d rest ih =>
    rw [List.foldl_cons, ih]
    simp [recordCall]

theorem publish_recordCall {α : Type} (use_count : Nat → Nat) (self : EventSystem TKey)
    (key : TKey) (typeHash : Nat) (vargs : α) :
    (self.publish recordCall use_count key typeHash vargs []).2
      = ((self.bindings key).filter
          (fun b => !b.unique use_count && b.get._typeHashCode == typeHash)).map
          (fun b => { objPtr := b.get._objPtr, func := b.get._func, vargs := vargs }) := by
  rw [publish_snd, foldl_recordCall]
  simp

theorem exec_error_iff {α ρ σ : Type} (call : Nat → Nat → α → σ → ρ × σ) (d : GDelegate)
    (typeHash : Nat) (vargs : α) (w : σ) :
    (∃ e, (d.exec call typeHash vargs w).1 = Except.error e) ↔ d._typeHashCode ≠ typeHash := by
  unfold GDelegate.exec
  by_cases h : d._typeHashCode = typeHash
  · simp [h]
  · simp [h]

end EventSystem

namespace EventSystem

variable {TKey : Type} [LinearOrder TKey]

/-- Claim C2, as stated, fails.  Key 0 holds one binding; it is not dangling and its hash
code is the one of the published argument, so no signature check fails; its method
throws a `bad_delegate_call` of its own.  `publish` invokes the method and returns
false. -/
theorem publish_false_when_method_throws_bad_delegate_call :
    (∀ b ∈ badCallRegistry.bindings 0,
      b.unique (fun _ => 2) = false ∧ b.get._typeHashCode = 7) ∧
    (badCallRegistry.publishThrowing (recordThen methodEnds) (fun _ => 2) 0 7 (1 : Int)
      []).1.result = Except.ok false ∧
    (badCallRegistry.publishThrowing (recordThen methodEnds) (fun _ => 2) 0 7 (1 : Int)
      []).1.state = [{ objPtr := 100, func := 5, vargs := 1 }] :=
  ⟨by decide, rfl, by decide⟩

/-- Claim C2, amended.  When `publish` returns, the flag is true exactly when no binding
under `key` is dangling and no call of `exec` made by the loop ended in a
`bad_delegate_call`, thrown by the signature check or by the bound method.  The calls
of `exec` are those of the bindings that are not dangling, one each in order, each with
the result `exec` gives in the state it is made in, which is the state the calls
before it left.  `publish` returns unless a bound method
throws another exception, and returns true on a key without bindings.  For bound
methods that return normally the flag is true exactly when no binding is dangling and
no `exec` of a binding that is not dangling fails the signature check. -/
theorem publish_true_iff_no_dangling_no_bad_delegate_call {α ε σ : Type}
    (call : Nat → Nat → α → σ → Except (bad_delegate_call ⊕ ε) Unit × σ)
    (callOk : Nat → Nat → α → σ → Unit × σ) (use_count : Nat → Nat)
    (self : EventSystem TKey) (key : TKey) (typeHash : Nat) (vargs : α) (w : σ) :
    (∀ flag, (self.publishThrowing call use_count key typeHash vargs w).1.result
        = Except.ok flag →
      (flag = true ↔
        (∀ b ∈ self.bindings key, b.unique use_count = false) ∧
        ∀ x ∈ (self.publishThrowing call use_count key typeHash vargs w).1.execs,
          ∀ e, x.result ≠ Except.error (Sum.inl e))) ∧
    (∀ x ∈ (self.publishThrowing call use_count key typeHash vargs w).1.execs,
      x.del ∈ self.bindings key ∧ x.del.unique use_count = false ∧
      (x.del.get.execThrowing call typeHash vargs x.before).1 = x.result) ∧
    (∀ pre x post,
      (self.publishThrowing call use_count key typeHash vargs w).1.execs = pre ++ x :: post →
      x.before = pre.foldl
        (fun s y => (y.del.get.execThrowing call typeHash vargs s).2.2) w) ∧
    (∀ flag, (self.publishThrowing call use_count key typeHash vargs w).1.result
        = Except.ok flag →
      (self.publishThrowing call use_count key typeHash vargs w).1.execs.map (fun x => x.del)
        = (self.bindings key).filter (fun b => !b.unique use_count)) ∧
    ((∀ objPtr func w1 e, (call objPtr func vargs w1).1 ≠ Except.error (Sum.inr e)) →
      ∃ flag, (self.publishThrowing call use_count key typeHash vargs w).1.result
        = Except.ok flag) ∧
    (self.bindings key = [] →
      (self.publishThrowing call use_count key typeHash vargs w).1.result = Except.ok true) ∧
    ((self.publish callOk use_count key typeHash vargs w).1 = true ↔
      (∀ b ∈ self.bindings key, b.unique use_count = false) ∧
      (∀ b ∈ self.bindings key, b.unique use_count = false →
        ∀ w1 e, (b.get.exec callOk typeHash vargs w1).1 ≠ Except.error e)) := by
  rw [publishThrowing_fst]
  refine ⟨?_, publishLoop_execs call use_count typeHash vargs _ true w, ?_, ?_, ?_, ?_, ?_⟩
  · intro flag hflag
    rw [publishLoop_flag call use_count typeHash vargs _ true w flag hflag]
    simp
  · intro pre x post h
    exact publishLoop_before call use_count typeHash vargs _ true w pre post x h
  · intro flag hflag
    exact publishLoop_execs_map call use_count typeHash vargs _ true w flag hflag
  · intro hno
    exact publishLoop_returns call use_count typeHash vargs _ true w hno
  · intro h
    rw [h]
    simp [publishLoop]
  · rw [publish_fst]
    constructor
    · intro h
      rw [List.all_eq_true] at h
      refine ⟨?_, ?_⟩
      · intro b hb
        have := h b hb
        simp at this
        exact this.1
      · intro b hb _ w1 e he
        have := h b hb
        simp at this
        exact (exec_error_iff callOk b.get typeHash vargs w1).1 ⟨e, he⟩ this.2
    · rintro ⟨hl, hm⟩
      rw [List.all_eq_true]
      intro b hb
      have h1 := hl b hb
      have h2 : b.get._typeHashCode = typeHash := by
        by_contra hne
        obtain ⟨e, he⟩ := (exec_error_iff callOk b.get typeHash vargs w).2 hne
        exact hm b hb h1 w e he
      simp [h1, h2]

/-- Claim C3, as stated, fails.  Key 0 holds two bindings, both not dangling and both of
the hash code of the published argument; the method of the first throws an exception
that is not a `bad_delegate_call`.  The exception leaves `publish`, and the method of
the second binding is not invoked. -/
theorem publish_left_by_exception_skips_later_binding :
    (∀ b ∈ runtimeErrorRegistry.bindings 0,
      b.unique (fun _ => 2) = false ∧ b.get._typeHashCode = 7) ∧
    (runtimeErrorRegistry.bindings 0).length = 2 ∧
    (runtimeErrorRegistry.publishThrowing (recordThen methodEnds) (fun _ => 2) 0 7 (1 : Int)
      []).1.result = Except.error "std::runtime_error" ∧
    (runtimeErrorRegistry.publishThrowing (recordThen methodEnds) (fun _ => 2) 0 7 (1 : Int)
      []).1.state = [{ objPtr := 100, func := 6, vargs := 1 }] :=
  ⟨by decide, by decide, rfl, by decide⟩

/-- Claim C3, amended.  Whatever the bound methods do, the state `publish` leaves is the
one obtained by running, in the stored order, once each and with the published
arguments, the methods of an initial segment of the bindings under `key` that are
not dangling and whose hash code matches: of all of them when `publish` returns, which
it does unless a bound method throws an exception other than `bad_delegate_call`.  A
binding that is dangling or mismatched, or whose method throws `bad_delegate_call`, is
passed and the later ones still run.  For bound methods that return normally, with
the recording semantics the invocations made are exactly those of the live, matching
bindings, in order, all of them when every binding is live and matching; a binding
subscribed later is invoked after the earlier ones; a listener that adds the published
integer to its counter has counter 1 after one publish of 1, and 2 after two. -/
theorem publish_invokes_live_matching_until_exception {α ε σ : Type}
    (call : Nat → Nat → α → σ → Except (bad_delegate_call ⊕ ε) Unit × σ)
    (callOk : Nat → Nat → α → σ → Unit × σ) (use_count : Nat → Nat)
    (self : EventSystem TKey) (key : TKey) (typeHash : Nat) (vargs : α) (w : σ) :
    (∃ invoked rest : List SharedPtr,
      invoked ++ rest = (self.bindings key).filter
        (fun b => !b.unique use_count && b.get._typeHashCode == typeHash) ∧
      (self.publishThrowing call use_count key typeHash vargs w).1.state
        = invoked.foldl (fun w1 b => (call b.get._objPtr b.get._func vargs w1).2) w ∧
      (∀ flag, (self.publishThrowing call use_count key typeHash vargs w).1.result
          = Except.ok flag → rest = [])) ∧
    ((∀ objPtr func w1 e, (call objPtr func vargs w1).1 ≠ Except.error (Sum.inr e)) →
      (∃ flag, (self.publishThrowing call use_count key typeHash vargs w).1.result
        = Except.ok flag) ∧
      (self.publishThrowing call use_count key typeHash vargs w).1.state
        = ((self.bindings key).filter
            (fun b => !b.unique use_count && b.get._typeHashCode == typeHash)).foldl
            (fun w1 b => (call b.get._objPtr b.get._func vargs w1).2) w) ∧
    (self.publish callOk use_count key typeHash vargs w).2
      = ((self.bindings key).filter
          (fun b => !b.unique use_count && b.get._typeHashCode == typeHash)).foldl
          (fun w1 b => (callOk b.get._objPtr b.get._func vargs w1).2) w ∧
    (self.publish recordCall use_count key typeHash vargs []).2
      = ((self.bindings key).filter
          (fun b => !b.unique use_count && b.get._typeHashCode == typeHash)).map
          (fun b => { objPtr := b.get._objPtr, func := b.get._func, vargs := vargs }) ∧
    ((∀ b ∈ self.bindings key,
        b.unique use_count = false ∧ b.get._typeHashCode = typeHash) →
      (self.publish recordCall use_count key typeHash vargs []).2
        = (self.bindings key).map
          (fun b => { objPtr := b.get._objPtr, func := b.get._func, vargs := vargs })) ∧
    (∀ d : SharedPtr,
      (∀ b ∈ self.bindings key,
        ¬ (b.get._objPtr = d.get._objPtr ∧ b.get._func = d.get._func)) →
      ((self.subscribe key d).2.publish recordCall use_count key typeHash vargs []).2
        = (self.publish recordCall use_count key typeHash vargs []).2 ++
          (if (!d.unique use_count && d.get._typeHashCode == typeHash) = true
            then [{ objPtr := d.get._objPtr, func := d.get._func, vargs := vargs }]
            else [])) ∧
    (subscribeTestRegistry.publish receivedNumbers (fun _ => 2) 0 7 1 (fun _ => 0)).2 100 = 1 ∧
    (subscribeTestRegistry.publish receivedNumbers (fun _ => 2) 0 7 1
      (subscribeTestRegistry.publish receivedNumbers (fun _ => 2) 0 7 1 (fun _ => 0)).2).2 100
      = 2 := by
  refine ⟨?_, ?_, publish_snd callOk use_count self key typeHash vargs w,
    publish_recordCall use_count self key typeHash vargs, ?_, ?_, ?_, ?_⟩
  · rw [publishThrowing_fst]
    exact publishLoop_state call use_count typeHash vargs _ true w
  · intro hno
    rw [publishThrowing_fst]
    obtain ⟨flag, hflag⟩ := publishLoop_returns call use_count typeHash vargs
      (self.bindings key) true w hno
    obtain ⟨invoked, rest, h1, h2, h3⟩ := publishLoop_state call use_count typeHash vargs
      (self.bindings key) true w
    have hrest := h3 flag hflag
    subst hrest
    rw [List.append_nil] at h1
    subst h1
    exact ⟨⟨flag, hflag⟩, h2⟩
  · intro hall
    rw [publish_recordCall]
    have hf : (self.bindings key).filter
        (fun b => !b.unique use_count && b.get._typeHashCode == typeHash)
        = self.bindings key := by
      rw [List.filter_eq_self]
      intro b hb
      have := hall b hb
      simp [this.1, this.2]
    rw [hf]
  · intro d hfresh
    have hbind : (self.subscribe key d).2.bindings key = self.bindings key ++ [d] :=
      find_eq_some_bindings _ key _ (subscribe_of_no_equal self key d hfresh).2
    rw [publish_recordCall, publish_recordCall, hbind, List.filter_append, List.map_append]
    by_cases hc : (!d.unique use_count && d.get._typeHashCode == typeHash) = true
    · simp [List.filter_cons, hc]
    · simp [List.filter_cons, hc]
  · decide
  · decide

end EventSystem

namespace EventSystem

variable {TKey : Type} [LinearOrder TKey]

theorem bindings_map_filter (self : EventSystem TKey) (p : SharedPtr → Bool) (key : TKey) :
    bindings { self with _eventBindings := self._eventBindings.map (fun entry =>
        (entry.1, eraseRemoveIf p entry.2)) } key
      = (self.bindings key).filter (fun b => !p b) := by
  unfold bindings
  simp only [StdMap.find_map_snd]
  cases StdMap.find self._eventBindings key with
  | none => simp
  | some v => simp [eraseRemoveIf]

/-- Claim C4.  After `unsubscribe(listener)` the entry of every key is the old entry
with the bindings whose object is `listener` filtered out: a binding is under a key
afterwards exactly when it was there before and its object is another one, the
bindings left are a sublist of the old list (same relative order), and the state
left is the one the cleanup hook of the listener, run once, makes of the state
before. -/
theorem unsubscribe_removes_exactly_listener {σ : Type} (listenerPrune : Nat → σ → σ)
    (self : EventSystem TKey) (listener : Nat) (w : σ) (key : TKey) :
    StdMap.find (self.unsubscribe listenerPrune listener w).1._eventBindings key
      = (StdMap.find self._eventBindings key).map
          (fun v => v.filter (fun b => decide (b.get._objPtr ≠ listener))) ∧
    (∀ b, b ∈ (self.unsubscribe listenerPrune listener w).1.bindings key ↔
      b ∈ self.bindings key ∧ b.get._objPtr ≠ listener) ∧
    List.Sublist ((self.unsubscribe listenerPrune listener w).1.bindings key)
      (self.bindings key) ∧
    (self.unsubscribe listenerPrune listener w).2 = listenerPrune listener w := by
  have hb : (self.unsubscribe listenerPrune listener w).1.bindings key
      = (self.bindings key).filter (fun b => !b.get.isCaller listener) :=
    bindings_map_filter self (fun del => del.get.isCaller listener) key
  refine ⟨?_, ?_, ?_, rfl⟩
  · simp only [unsubscribe, StdMap.find_map_snd]
    cases StdMap.find self._eventBindings key with
    | none => simp
    | some v =>
      simp only [Option.map_some', eraseRemoveIf, GDelegate.isCaller]
      congr 1
      apply List.filter_congr
      intro b _
      by_cases hbl : b.get._objPtr = listener
      · simp [hbl]
      · simp [hbl]
  · intro b
    rw [hb, List.mem_filter]
    simp [GDelegate.isCaller]
  · rw [hb]
    exact List.filter_sublist _

/-- Claim C5.  After `pruneBindings()` the entry of every key is the old entry with
the dangling bindings (`unique()`, the test `publish` makes) filtered out: a binding
is under a key afterwards exactly when it was there before and is not dangling, so
none that is left is dangling, and the bindings left are a sublist of the old list
(same relative order). -/
theorem pruneBindings_removes_exactly_dangling (use_count : Nat → Nat)
    (self : EventSystem TKey) (key : TKey) :
    StdMap.find (self.pruneBindings use_count)._eventBindings key
      = (StdMap.find self._eventBindings key).map
          (fun v => v.filter (fun b => !b.unique use_count)) ∧
    (∀ b, b ∈ (self.pruneBindings use_count).bindings key ↔
      b ∈ self.bindings key ∧ b.unique use_count = false) ∧
    (∀ b ∈ (self.pruneBindings use_count).bindings key, b.unique use_count = false) ∧
    List.Sublist ((self.pruneBindings use_count).bindings key) (self.bindings key) := by
  have hb : (self.pruneBindings use_count).bindings key
      = (self.bindings key).filter (fun b => !b.unique use_count) :=
    bindings_map_filter self (fun del => del.unique use_count) key
  refine ⟨?_, ?_, ?_, ?_⟩
  · simp only [pruneBindings, StdMap.find_map_snd]
    cases StdMap.find self._eventBindings key with
    | none => simp
    | some v => simp [eraseRemoveIf]
  · intro b
    rw [hb, List.mem_filter]
    simp
  · intro b h
    rw [hb, List.mem_filter] at h
    simpa using h.2
  · rw [hb]
    exact List.filter_sublist _

end EventSystem

namespace EventSystem

variable {TKey : Type} [LinearOrder TKey]

end EventSystem

namespace EventSystem

variable {TKey : Type} [LinearOrder TKey]

end EventSystem

/-- Claim C8.  For the delegate created from (object, method) with the hash code
`createdHash` and an `exec` requested with the hash code `requestedHash`: when the two
differ, `exec` throws `bad_delegate_call` and leaves the state as it was, whatever the
bound method would do, so the method is not called; when they are equal, `exec` returns
the result of the bound method on the stored object with the given arguments, and the
state it leaves.  After an `exec` that failed, a correctly typed `exec` of the same
delegate succeeds. -/
theorem GDelegate.exec_checks_signature {α ρ β τ σ : Type}
    (call : Nat → Nat → α → σ → ρ × σ) (callGood : Nat → Nat → β → σ → τ × σ)
    (objPtr func createdHash requestedHash : Nat) (vargs : α) (goodArgs : β) (w : σ) :
    (requestedHash ≠ createdHash →
      (GDelegate.create objPtr func createdHash).exec call requestedHash vargs w
        = (Except.error ⟨GDelegate.typeSafetyMessage⟩, w)) ∧
    (requestedHash = createdHash →
      (GDelegate.create objPtr func createdHash).exec call requestedHash vargs w
        = (Except.ok (call objPtr func vargs w).1, (call objPtr func vargs w).2)) ∧
    (requestedHash ≠ createdHash →
      (GDelegate.create objPtr func createdHash).exec callGood createdHash goodArgs
          ((GDelegate.create objPtr func createdHash).exec call requestedHash vargs w).2
        = (Except.ok (callGood objPtr func goodArgs w).1,
            (callGood objPtr func goodArgs w).2)) := by
  refine ⟨?_, ?_, ?_⟩
  · intro h
    simp [GDelegate.exec, GDelegate.create, Ne.symm h]
  · intro h
    simp [GDelegate.exec, GDelegate.create, h]
  · intro h
    simp [GDelegate.exec, GDelegate.create, Ne.symm h]

/-- Claim C9.  On a delegate just constructed `exec()` throws `bad_delegate_call` with
the not-primed message and leaves delegate and state as they were, so the bound
method is not called.  After `prime(vargs)`, on any delegate, the first `exec()`
returns the result of the bound method; a second `exec()` with no `prime` in between
throws again and leaves delegate and state as the first left them, so the bound
method is not called a second time.  The call operator is `exec`. -/
theorem TDelegate.exec_needs_prime_each_time {Args ρ σ : Type} [Inhabited Args]
    (call : Nat → Nat → Args → σ → ρ × σ) (objPtr func : Nat) (d : TDelegate Args)
    (vargs : Args) (w : σ) :
    (TDelegate.construct objPtr func : TDelegate Args).exec call w
      = (Except.error ⟨TDelegate.notPrimedMessage⟩, TDelegate.construct objPtr func, w) ∧
    (((TDelegate.construct objPtr func : TDelegate Args).prime vargs).exec call w).1
      = Except.ok (call objPtr func vargs w).1 ∧
    (((TDelegate.construct objPtr func : TDelegate Args).prime vargs).exec call w).2.2
      = (call objPtr func vargs w).2 ∧
    ((d.prime vargs).exec call w).1 = Except.ok (call d._objPtr d._func vargs w).1 ∧
    ((d.prime vargs).exec call w).2.2 = (call d._objPtr d._func vargs w).2 ∧
    ((d.prime vargs).exec call w).2.1.exec call ((d.prime vargs).exec call w).2.2
      = (Except.error ⟨TDelegate.notPrimedMessage⟩, ((d.prime vargs).exec call w).2.1,
          (call d._objPtr d._func vargs w).2) ∧
    d.operatorCall call w = d.exec call w := by
  refine ⟨?_, ?_, ?_, ?_, ?_, ?_, rfl⟩
  · simp [TDelegate.exec, TDelegate.construct]
  · simp [TDelegate.exec, TDelegate.construct, TDelegate.prime]
  · simp [TDelegate.exec, TDelegate.construct, TDelegate.prime]
  · simp [TDelegate.exec, TDelegate.prime]
  · simp [TDelegate.exec, TDelegate.prime]
  · simp [TDelegate.exec, TDelegate.prime]

/-- Claim C10.  For a delegate bound to (object, method), in whatever state, `prime(vargs)`
followed by `exec()` returns the result of the bound method run on the bound object
with exactly `vargs`, and leaves the state that call leaves.  With the setter
`setAdd`, `prime(5, 3)` and `exec()` leave the data of the test object equal to 8. -/
theorem TDelegate.prime_then_exec_calls_with_staged_args {Args ρ σ : Type}
    (call : Nat → Nat → Args → σ → ρ × σ) (d : TDelegate Args) (vargs : Args) (w : σ) :
    ((d.prime vargs).exec call w).1 = Except.ok (call d._objPtr d._func vargs w).1 ∧
    ((d.prime vargs).exec call w).2.2 = (call d._objPtr d._func vargs w).2 ∧
    (((TDelegate.construct 1 2 : TDelegate (Int × Int)).prime (5, 3)).exec
        ExampleClass.setAddCall ExampleClass.construct).1 = Except.ok () ∧
    (((TDelegate.construct 1 2 : TDelegate (Int × Int)).prime (5, 3)).exec
        ExampleClass.setAddCall ExampleClass.construct).2.2.getData = 8 := by
  refine ⟨?_, ?_, ?_, ?_⟩
  · simp [TDelegate.exec, TDelegate.prime]
  · simp [TDelegate.exec, TDelegate.prime]
  · rfl
  · decide

/-! ## The registry over sequences of calls -/

namespace EventSystem

variable {TKey : Type} [LinearOrder TKey]

theorem find_subscribe_other (self : EventSystem TKey) (key k2 : TKey) (d : SharedPtr)
    (hne : k2 ≠ key) :
    StdMap.find (self.subscribe key d).2._eventBindings k2
      = StdMap.find self._eventBindings k2 := by
  unfold subscribe
  cases hf : StdMap.find self._eventBindings key with
  | none =>
    simp only [Option.isNone_none, if_true]
    split_ifs
    · simp [StdMap.find_modify, hne, StdMap.find_assign_other]
    · simp [hne, StdMap.find_assign_other]
  | some v =>
    simp only [Option.isNone_some, Bool.false_eq_true, if_false]
    split_ifs
    · simp [StdMap.find_modify, hne]
    · rfl

theorem bindings_subscribe_other (self : EventSystem TKey) (key k2 : TKey) (d : SharedPtr)
    (hne : k2 ≠ key) : (self.subscribe key d).2.bindings k2 = self.bindings k2 := by
  unfold bindings
  rw [find_subscribe_other self key k2 d hne]

theorem subscribe_fst (self : EventSystem TKey) (key : TKey) (d : SharedPtr) :
    (self.subscribe key d).1 = (self.bindings key).all (fun b => !b.get.eq d.get) := by
  by_cases h : ∀ b ∈ self.bindings key,
      ¬ (b.get._objPtr = d.get._objPtr ∧ b.get._func = d.get._func)
  · rw [(subscribe_of_no_equal self key d h).1]
    symm
    rw [List.all_eq_true]
    intro b hb
    have := h b hb
    cases hq : b.get.eq d.get with
    | false => rfl
    | true =>
      exfalso
      simp [GDelegate.eq] at hq
      exact this hq
  · have hex : ∃ b ∈ self.bindings key,
        b.get._objPtr = d.get._objPtr ∧ b.get._func = d.get._func := by
      by_contra hcon
      exact h (fun b hb hsame => hcon ⟨b, hb, hsame⟩)
    rw [(subscribe_of_equal self key d hex).1]
    symm
    rw [List.all_eq_false]
    obtain ⟨b, hb, h1, h2⟩ := hex
    exact ⟨b, hb, by simp [GDelegate.eq, h1, h2]⟩

theorem bindings_unsubscribe {σ : Type} (listenerPrune : Nat → σ → σ)
    (self : EventSystem TKey) (listener : Nat) (w : σ) (key : TKey) :
    (self.unsubscribe listenerPrune listener w).1.bindings key
      = (self.bindings key).filter (fun b => !b.get.isCaller listener) :=
  bindings_map_filter self (fun del => del.get.isCaller listener) key

theorem bindings_pruneBindings (use_count : Nat → Nat) (self : EventSystem TKey)
    (key : TKey) :
    (self.pruneBindings use_count).bindings key
      = (self.bindings key).filter (fun b => !b.unique use_count) :=
  bindings_map_filter self (fun del => del.unique use_count) key

theorem find_unsubscribeKey {σ : Type} (listenerPrune : Nat → σ → σ)
    (self : EventSystem TKey) (key k2 : TKey) (listener : Nat) (w : σ) :
    StdMap.find (self.unsubscribeKey listenerPrune key listener w).1._eventBindings k2
      = if k2 = key then (StdMap.find self._eventBindings k2).map
          (fun v => v.filter (fun b => !b.get.isCaller listener))
        else StdMap.find self._eventBindings k2 := by
  unfold unsubscribeKey
  cases hf : StdMap.find self._eventBindings key with
  | none =>
    by_cases hk : k2 = key
    · subst hk
      simp [hf]
    · simp [hk]
  | some v =>
    simp only [StdMap.find_modify]
    by_cases hk : k2 = key
    · rw [if_pos hk, if_pos hk]
      rfl
    · simp [hk]

theorem bindings_unsubscribeKey {σ : Type} (listenerPrune : Nat → σ → σ)
    (self : EventSystem TKey) (key k2 : TKey) (listener : Nat) (w : σ) :
    (self.unsubscribeKey listenerPrune key listener w).1.bindings k2
      = if k2 = key then (self.bindings k2).filter (fun b => !b.get.isCaller listener)
        else self.bindings k2 := by
  unfold bindings
  rw [find_unsubscribeKey]
  by_cases hk : k2 = key
  · simp only [hk, if_true]
    cases StdMap.find self._eventBindings key with
    | none => simp
    | some v => simp
  · simp [hk]

theorem noEqualPair_filter (l : List SharedPtr) (p : SharedPtr → Bool)
    (h : NoEqualPair l) : NoEqualPair (l.filter p) :=
  List.Pairwise.sublist (List.filter_sublist l) h

theorem noEqualPair_subscribe (self : EventSystem TKey) (key k2 : TKey) (d : SharedPtr)
    (h : NoEqualPair (self.bindings k2)) :
    NoEqualPair ((self.subscribe key d).2.bindings k2) := by
  by_cases hk : k2 = key
  · subst hk
    by_cases hno : ∀ b ∈ self.bindings k2,
        ¬ (b.get._objPtr = d.get._objPtr ∧ b.get._func = d.get._func)
    · rw [find_eq_some_bindings _ k2 _ (subscribe_of_no_equal self k2 d hno).2]
      unfold NoEqualPair
      rw [List.pairwise_append]
      refine ⟨h, List.pairwise_singleton _ _, ?_⟩
      intro a ha b hb
      rw [List.mem_singleton] at hb
      subst hb
      exact hno a ha
    · have hex : ∃ b ∈ self.bindings k2,
          b.get._objPtr = d.get._objPtr ∧ b.get._func = d.get._func := by
        by_contra hcon
        exact hno (fun b hb hsame => hcon ⟨b, hb, hsame⟩)
      rw [(subscribe_of_equal self k2 d hex).2]
      exact h
  · rw [bindings_subscribe_other self key k2 d hk]
    exact h

theorem noEqualPair_apply (self : EventSystem TKey) (c : RegistryCall TKey)
    (h : ∀ key, NoEqualPair (self.bindings key)) (key : TKey) :
    NoEqualPair ((RegistryCall.apply self c).bindings key) := by
  cases c with
  | subscribe k d => exact noEqualPair_subscribe self k key d (h key)
  | bind k d => exact noEqualPair_subscribe self k key d (h key)
  | unsubscribe l =>
    show NoEqualPair ((self.unsubscribe (fun _ (u : Unit) => u) l ()).1.bindings key)
    rw [bindings_unsubscribe]
    exact noEqualPair_filter _ _ (h key)
  | unsubscribeKey k l =>
    show NoEqualPair ((self.unsubscribeKey (fun _ (u : Unit) => u) k l ()).1.bindings key)
    rw [bindings_unsubscribeKey]
    split
    · exact noEqualPair_filter _ _ (h key)
    · exact h key
  | pruneBindings uc =>
    show NoEqualPair ((self.pruneBindings uc).bindings key)
    rw [bindings_pruneBindings]
    exact noEqualPair_filter _ _ (h key)
  | publish k => exact h key

theorem noEqualPair_run (calls : List (RegistryCall TKey)) (self : EventSystem TKey)
    (h : ∀ key, NoEqualPair (self.bindings key)) (key : TKey) :
    NoEqualPair ((RegistryCall.run self calls).bindings key) := by
  induction calls generalizing self with
  | nil => exact h key
  | cons c rest ih =>
    exact ih (RegistryCall.apply self c) (fun k => noEqualPair_apply self c h k)

theorem noEqualPair_construct (name : String) (key : TKey) :
    NoEqualPair ((construct name : EventSystem TKey).bindings key) := by
  simp [construct, bindings, StdMap.find, NoEqualPair]

end EventSystem

namespace EventSystem

variable {TKey : Type} [LinearOrder TKey]

/-- Claim C11.  In the registry that any sequence of calls of `subscribe`, `bind`,
`unsubscribe(listener)`, `unsubscribe(key, listener)`, `pruneBindings` and `publish`
makes of the empty registry, no key holds two bindings with the same object reference
and the same method reference: no two places of the list under a key do.  The registry
a call of `unsubscribe` leaves is the same for every cleanup hook and state. -/
theorem reachable_registry_has_no_equal_bindings (name : String)
    (calls : List (RegistryCall TKey)) (key : TKey) :
    NoEqualPair ((RegistryCall.run (construct name) calls).bindings key) ∧
    (∀ (i j : Nat) (hi : i < ((RegistryCall.run (construct name) calls).bindings key).length)
        (hj : j < ((RegistryCall.run (construct name) calls).bindings key).length), i < j →
      ¬ ((((RegistryCall.run (construct name) calls).bindings key).get ⟨i, hi⟩).get._objPtr
            = (((RegistryCall.run (construct name) calls).bindings key).get ⟨j, hj⟩).get._objPtr ∧
          (((RegistryCall.run (construct name) calls).bindings key).get ⟨i, hi⟩).get._func
            = (((RegistryCall.run (construct name) calls).bindings key).get ⟨j, hj⟩).get._func)) ∧
    (∀ (σ : Type) (listenerPrune : Nat → σ → σ) (w : σ) (s : EventSystem TKey) (l : Nat),
      (s.unsubscribe listenerPrune l w).1 = RegistryCall.apply s (RegistryCall.unsubscribe l)) ∧
    (∀ (σ : Type) (listenerPrune : Nat → σ → σ) (w : σ) (s : EventSystem TKey) (k : TKey)
        (l : Nat),
      (s.unsubscribeKey listenerPrune k l w).1
        = RegistryCall.apply s (RegistryCall.unsubscribeKey k l)) := by
  have hinv := noEqualPair_run calls (construct name) (noEqualPair_construct name) key
  refine ⟨hinv, ?_, ?_, ?_⟩
  · intro i j hi hj hij
    exact (List.pairwise_iff_getElem.1 hinv) i j hi hj hij
  · intro σ listenerPrune w s l
    rfl
  · intro σ listenerPrune w s k l
    simp only [RegistryCall.apply, unsubscribeKey]
    cases StdMap.find s._eventBindings k <;> rfl

/-- Claim C12.  The registry `publish` leaves is the registry before the call, whatever
the bound methods do and whether `publish` returns or is left by an exception: the
entry of every key is the old one, the bindings of `key` after the loop are those
before it, dangling and mismatched ones included, and a key without entry still has
none.  The registry that a `publish` in a sequence of calls hands on is that one. -/
theorem publish_leaves_registry_unchanged {α ε σ : Type}
    (call : Nat → Nat → α → σ → Except (bad_delegate_call ⊕ ε) Unit × σ)
    (use_count : Nat → Nat) (self : EventSystem TKey) (key : TKey) (typeHash : Nat)
    (vargs : α) (w : σ) :
    (self.publishThrowing call use_count key typeHash vargs w).2 = self ∧
    (∀ k2, StdMap.find (self.publishThrowing call use_count key typeHash vargs w).2._eventBindings
        k2 = StdMap.find self._eventBindings k2) ∧
    (self.publishThrowing call use_count key typeHash vargs w).1.dels = self.bindings key ∧
    (StdMap.find self._eventBindings key = none →
      StdMap.find (self.publishThrowing call use_count key typeHash vargs w).2._eventBindings
        key = none) ∧
    RegistryCall.apply self (RegistryCall.publish key)
      = (self.publishThrowing call use_count key typeHash vargs w).2 := by
  have h := publishThrowing_snd call use_count self key typeHash vargs w
  refine ⟨h, ?_, ?_, ?_, ?_⟩
  · intro k2
    rw [h]
  · rw [publishThrowing_fst, publishLoop_dels]
  · intro hnone
    rw [h]
    exact hnone
  · rw [h]
    rfl

/-- Claim C13.  After `unsubscribe(key, listener)` the entry of `key` is the old entry
with the bindings whose object is `listener` filtered out (the others stay, in their
order; a key without entry stays without), the entry of every other key is the old
one, bindings of `listener` included, and the state left is the one the cleanup hook
of the listener, run once, makes of the state before, whether `key` has an entry or
not. -/
theorem unsubscribeKey_removes_only_under_key {σ : Type} (listenerPrune : Nat → σ → σ)
    (self : EventSystem TKey) (key : TKey) (listener : Nat) (w : σ) :
    StdMap.find (self.unsubscribeKey listenerPrune key listener w).1._eventBindings key
      = (StdMap.find self._eventBindings key).map
          (fun v => v.filter (fun b => decide (b.get._objPtr ≠ listener))) ∧
    (∀ b, b ∈ (self.unsubscribeKey listenerPrune key listener w).1.bindings key ↔
      b ∈ self.bindings key ∧ b.get._objPtr ≠ listener) ∧
    List.Sublist ((self.unsubscribeKey listenerPrune key listener w).1.bindings key)
      (self.bindings key) ∧
    (∀ k2, k2 ≠ key →
      StdMap.find (self.unsubscribeKey listenerPrune key listener w).1._eventBindings k2
        = StdMap.find self._eventBindings k2) ∧
    (self.unsubscribeKey listenerPrune key listener w).2 = listenerPrune listener w := by
  have hfilter : (fun b : SharedPtr => !b.get.isCaller listener)
      = fun b => decide (b.get._objPtr ≠ listener) := by
    funext b
    by_cases hbl : b.get._objPtr = listener
    · simp [GDelegate.isCaller, hbl]
    · simp [GDelegate.isCaller, hbl]
  refine ⟨?_, ?_, ?_, ?_, ?_⟩
  · rw [find_unsubscribeKey, if_pos rfl, hfilter]
  · intro b
    rw [bindings_unsubscribeKey, if_pos rfl, List.mem_filter]
    simp [GDelegate.isCaller]
  · rw [bindings_unsubscribeKey, if_pos rfl]
    exact List.filter_sublist _
  · intro k2 hk2
    rw [find_unsubscribeKey, if_neg hk2]
  · unfold unsubscribeKey
    cases StdMap.find self._eventBindings key <;> rfl

end EventSystem

namespace EventSystem

variable {TKey : Type} [LinearOrder TKey]

/-- Claim C14, as stated, fails.  The listener at address 100 has a binding under key 0,
next to the binding of a live listener whose method takes another parameter type;
after `unsubscribe` of the listener at 100, `publish` under key 0 returns false. -/
theorem publish_after_unsubscribe_can_be_false :
    ({ ctrl := 1, get := GDelegate.create 100 1 7 } : SharedPtr)
      ∈ twoListenerRegistry.bindings 0 ∧
    ((twoListenerRegistry.unsubscribe (fun _ (u : Unit) => u) 100 ()).1.publish
      recordCall (fun _ => 2) 0 7 (1 : Int) []).1 = false := by
  decide

/-- Claim C14, amended.  After `unsubscribe(listener)` a `publish` under any key makes no
call of `exec` on a binding of `listener`, so it invokes no method of `listener`.  When
it returns, it returns true exactly when every binding of another object under the
key is not dangling and no call of `exec` ended in a `bad_delegate_call`, thrown by the
signature check or by the bound method.  For bound methods that return normally it
runs the methods of the live, matching bindings of the other objects, in their order,
and returns true exactly when every binding of another object under the key is not
dangling and has the hash code of the published arguments. -/
theorem unsubscribe_then_publish_skips_listener {α ε σ ω : Type}
    (listenerPrune : Nat → ω → ω) (w0 : ω)
    (call : Nat → Nat → α → σ → Except (bad_delegate_call ⊕ ε) Unit × σ)
    (callOk : Nat → Nat → α → σ → Unit × σ)
    (use_count : Nat → Nat) (self : EventSystem TKey) (listener : Nat) (key : TKey)
    (typeHash : Nat) (vargs : α) (w : σ) :
    (∀ x ∈ ((self.unsubscribe listenerPrune listener w0).1.publishThrowing
        call use_count key typeHash vargs w).1.execs, x.del.get._objPtr ≠ listener) ∧
    (∀ flag, ((self.unsubscribe listenerPrune listener w0).1.publishThrowing
        call use_count key typeHash vargs w).1.result = Except.ok flag →
      (flag = true ↔
        (∀ b ∈ self.bindings key, b.get._objPtr ≠ listener → b.unique use_count = false) ∧
        ∀ x ∈ ((self.unsubscribe listenerPrune listener w0).1.publishThrowing
            call use_count key typeHash vargs w).1.execs,
          ∀ e, x.result ≠ Except.error (Sum.inl e))) ∧
    (∀ inv ∈ ((self.unsubscribe listenerPrune listener w0).1.publish
        recordCall use_count key typeHash vargs []).2, inv.objPtr ≠ listener) ∧
    ((self.unsubscribe listenerPrune listener w0).1.publish
        callOk use_count key typeHash vargs w).2
      = (((self.bindings key).filter (fun b => decide (b.get._objPtr ≠ listener))).filter
          (fun b => !b.unique use_count && b.get._typeHashCode == typeHash)).foldl
          (fun w1 b => (callOk b.get._objPtr b.get._func vargs w1).2) w ∧
    (((self.unsubscribe listenerPrune listener w0).1.publish
        callOk use_count key typeHash vargs w).1 = true ↔
      ∀ b ∈ self.bindings key, b.get._objPtr ≠ listener →
        b.unique use_count = false ∧ b.get._typeHashCode = typeHash) := by
  have hfilter : (fun b : SharedPtr => !b.get.isCaller listener)
      = fun b => decide (b.get._objPtr ≠ listener) := by
    funext b
    by_cases hbl : b.get._objPtr = listener
    · simp [GDelegate.isCaller, hbl]
    · simp [GDelegate.isCaller, hbl]
  have hb : (self.unsubscribe listenerPrune listener w0).1.bindings key
      = (self.bindings key).filter (fun b => decide (b.get._objPtr ≠ listener)) := by
    rw [bindings_unsubscribe, hfilter]
  refine ⟨?_, ?_, ?_, ?_, ?_⟩
  · intro x hx
    rw [publishThrowing_fst] at hx
    have := (publishLoop_execs call use_count typeHash vargs _ true w x hx).1
    rw [hb, List.mem_filter] at this
    simpa using this.2
  · intro flag hflag
    rw [publishThrowing_fst] at hflag ⊢
    rw [publishLoop_flag call use_count typeHash vargs _ true w flag hflag, hb]
    constructor
    · rintro ⟨_, h2, h3⟩
      refine ⟨?_, h3⟩
      intro b hbm hne
      exact h2 b (by rw [List.mem_filter]; exact ⟨hbm, by simpa using hne⟩)
    · rintro ⟨h2, h3⟩
      refine ⟨rfl, ?_, h3⟩
      intro b hbm
      rw [List.mem_filter] at hbm
      exact h2 b hbm.1 (by simpa using hbm.2)
  · intro inv hinv
    rw [publish_recordCall, hb, List.mem_map] at hinv
    obtain ⟨b, hbm, rfl⟩ := hinv
    rw [List.mem_filter, List.mem_filter] at hbm
    simpa using hbm.1.2
  · rw [publish_snd, hb]
  · rw [publish_fst, hb, List.all_eq_true]
    constructor
    · intro h b hbm hne
      have := h b (by rw [List.mem_filter]; exact ⟨hbm, by simpa using hne⟩)
      simpa using this
    · intro h b hbm
      rw [List.mem_filter] at hbm
      have hne : b.get._objPtr ≠ listener := by simpa using hbm.2
      have := h b hbm.1 hne
      simp [this.1, this.2]

end EventSystem

/-- Claim C15.  For `GDelegate` and for `TDelegate`, `a == b` is true exactly when `a` and
`b` have the same object reference and the same method reference; the stored hash
code, and the primed flag and staged arguments, do not enter the comparison; and
`a != b` is the negation of `a == b`. -/
theorem delegate_equality_is_object_and_method {Args : Type} (a b : GDelegate)
    (c d : TDelegate Args) (h1 h2 : Nat) (p1 p2 : Bool) (x1 x2 : Args) :
    (a.eq b = true ↔ a._objPtr = b._objPtr ∧ a._func = b._func) ∧
    ({ a with _typeHashCode := h1 }.eq { b with _typeHashCode := h2 } = a.eq b) ∧
    a.ne b = !a.eq b ∧
    (c.eq d = true ↔ c._objPtr = d._objPtr ∧ c._func = d._func) ∧
    ({ c with _primed := p1, _params := x1 }.eq { d with _primed := p2, _params := x2 }
      = c.eq d) ∧
    c.ne d = !c.eq d := by
  refine ⟨?_, rfl, ?_, ?_, rfl, ?_⟩
  · simp [GDelegate.eq]
  · simp only [GDelegate.ne, GDelegate.eq, bne, Bool.not_and]
  · simp [TDelegate.eq]
  · simp only [TDelegate.ne, TDelegate.eq, bne, Bool.not_and]

/-- Claim C16.  `exec()` runs the bound method only on a primed delegate: on one that is
not primed it throws the not-primed `bad_delegate_call` and leaves delegate and state
as they were.  After every `exec()` the delegate is not primed, whether the bound
method returned, the bound method threw, or `exec` itself threw.  An `exec()` made
right after another, no `prime` in between, throws not-primed and leaves the state as
it was, so staged arguments are consumed by one `exec` at most. -/
theorem TDelegate.exec_always_leaves_unprimed {Args ρ ε σ : Type}
    (call : Nat → Nat → Args → σ → Except ε ρ × σ) (callOk : Nat → Nat → Args → σ → ρ × σ)
    (d : TDelegate Args) (w : σ) :
    (d.execThrowing call w).2.1.isPrimed = false ∧
    (d.exec callOk w).2.1.isPrimed = false ∧
    (d.isPrimed = false →
      d.execThrowing call w = (Except.error (Sum.inl ⟨TDelegate.notPrimedMessage⟩), d, w) ∧
      d.exec callOk w = (Except.error ⟨TDelegate.notPrimedMessage⟩, d, w)) ∧
    (d.isPrimed = true →
      (d.execThrowing call w).2.2 = (call d._objPtr d._func d._params w).2 ∧
      (∀ v, (call d._objPtr d._func d._params w).1 = Except.ok v →
        (d.execThrowing call w).1 = Except.ok v) ∧
      (∀ e, (call d._objPtr d._func d._params w).1 = Except.error e →
        (d.execThrowing call w).1 = Except.error (Sum.inr e)) ∧
      d.exec callOk w = (Except.ok (callOk d._objPtr d._func d._params w).1,
        { d with _primed := false }, (callOk d._objPtr d._func d._params w).2)) ∧
    (d.execThrowing call w).2.1.execThrowing call (d.execThrowing call w).2.2
      = (Except.error (Sum.inl ⟨TDelegate.notPrimedMessage⟩), (d.execThrowing call w).2.1,
          (d.execThrowing call w).2.2) ∧
    (d.exec callOk w).2.1.exec callOk (d.exec callOk w).2.2
      = (Except.error ⟨TDelegate.notPrimedMessage⟩, (d.exec callOk w).2.1,
          (d.exec callOk w).2.2) := by
  have hT : (d.execThrowing call w).2.1.isPrimed = false := by
    unfold TDelegate.execThrowing TDelegate.isPrimed
    cases hp : d._primed with
    | false => simp [hp]
    | true =>
      simp only [Bool.not_true, Bool.false_eq_true, if_false]
      cases (call d._objPtr d._func d._params w).1 <;> rfl
  have hE : (d.exec callOk w).2.1.isPrimed = false := by
    unfold TDelegate.exec TDelegate.isPrimed
    cases hp : d._primed with
    | false => simp [hp]
    | true => simp
  refine ⟨hT, hE, ?_, ?_, ?_, ?_⟩
  · intro hp
    simp only [TDelegate.isPrimed] at hp
    simp [TDelegate.execThrowing, TDelegate.exec, hp]
  · intro hp
    simp only [TDelegate.isPrimed] at hp
    refine ⟨?_, ?_, ?_, ?_⟩
    · simp only [TDelegate.execThrowing, hp, Bool.not_true, Bool.false_eq_true, if_false]
      cases (call d._objPtr d._func d._params w).1 <;> rfl
    · intro v hv
      simp only [TDelegate.execThrowing, hp, Bool.not_true, Bool.false_eq_true, if_false, hv]
    · intro e he
      simp only [TDelegate.execThrowing, hp, Bool.not_true, Bool.false_eq_true, if_false, he]
    · simp [TDelegate.exec, hp]
  · simp only [TDelegate.isPrimed] at hT
    generalize d.execThrowing call w = r at hT
    simp [TDelegate.execThrowing, hT]
  · simp only [TDelegate.isPrimed] at hE
    generalize d.exec callOk w = r at hE
    simp [TDelegate.exec, hE]

namespace TDelegate

theorem runOps_recordCall {Args : Type} (o f : Nat) (ops : List (Op Args)) :
    ∀ (d : TDelegate Args) (w : List (Invocation Args)), d._objPtr = o → d._func = f →
      (runOps recordCall (d, w) ops).2
        = w ++ ((if d._primed = true then
              (match ops with
                | Op.exec :: _ => [d._params]
                | _ => [])
              else []) ++ primedThenExec ops).map
            (fun a => { objPtr := o, func := f, vargs := a }) := by
  induction ops with
  | nil =>
    intro d w _ _
    simp [runOps, primedThenExec]
  | cons op rest ih =>
    intro d w ho hf
    cases op with
    | prime a =>
      have h := ih (d.prime a) w ho hf
      simp only [runOps, List.foldl_cons, step] at h ⊢
      rw [h]
      cases rest with
      | nil => simp [prime, primedThenExec]
      | cons op2 r => cases op2 <;> simp [prime, primedThenExec]
    | exec =>
      cases hp : d._primed with
      | false =>
        have h := ih d w ho hf
        simp only [runOps, List.foldl_cons, step] at h ⊢
        have he : (d.exec recordCall w).2 = (d, w) := by simp [exec, hp]
        rw [he, h]
        simp [hp, primedThenExec]
      | true =>
        have he : (d.exec recordCall w).2
            = ({ d with _primed := false },
                w ++ [{ objPtr := o, func := f, vargs := d._params }]) := by
          simp [exec, hp, recordCall, ho, hf]
        have h := ih { d with _primed := false }
          (w ++ [{ objPtr := o, func := f, vargs := d._params }]) ho hf
        simp only [runOps, List.foldl_cons, step] at h ⊢
        rw [he, h]
        simp [primedThenExec]

theorem primedThenExec_sublist {Args : Type} (ops : List (Op Args)) :
    List.Sublist (primedThenExec ops) (primedArgs ops) := by
  induction ops with
  | nil => simp [primedThenExec, primedArgs]
  | cons op rest ih =>
    cases op with
    | exec => simpa [primedThenExec, primedArgs] using ih
    | prime a =>
      cases rest with
      | nil => simp [primedThenExec, primedArgs]
      | cons op2 r =>
        cases op2 with
        | exec =>
          simp only [primedThenExec, primedArgs] at ih ⊢
          exact List.Sublist.cons₂ a ih
        | prime b =>
          simp only [primedThenExec, primedArgs] at ih ⊢
          exact List.Sublist.cons a ih

end TDelegate

/-- Claim C17, as stated, fails.  On a delegate just constructed, `prime(1)`, `prime(2)`,
`exec()` invokes the bound method once, with 2: the arguments staged first are
dropped, although an `exec()` follows their `prime`. -/
theorem TDelegate.second_prime_drops_first :
    (TDelegate.runOps recordCall ((TDelegate.construct 1 2 : TDelegate Int), [])
      [TDelegate.Op.prime 1, TDelegate.Op.prime 2, TDelegate.Op.exec]).2
      = [{ objPtr := 1, func := 2, vargs := 2 }] := by
  decide

/-- Claim C17, amended.  For every sequence of `prime` and `exec()` calls made by one
thread on a delegate just constructed, the invocations of the bound method are, in
order, those of the arguments of each `prime` whose next call is `exec()`, once each.
They form a sublist of the staged arguments: no `prime` is invoked twice, and a `prime`
followed by another `prime` is overwritten and not invoked. -/
theorem TDelegate.invokes_each_prime_followed_by_exec_once {Args : Type} [Inhabited Args]
    (objPtr func : Nat) (ops post : List (TDelegate.Op Args)) (a b : Args) :
    (TDelegate.runOps recordCall ((TDelegate.construct objPtr func : TDelegate Args), [])
        ops).2
      = (TDelegate.primedThenExec ops).map
          (fun v => { objPtr := objPtr, func := func, vargs := v }) ∧
    List.Sublist (TDelegate.primedThenExec ops) (TDelegate.primedArgs ops) ∧
    TDelegate.primedThenExec (TDelegate.Op.prime a :: TDelegate.Op.exec :: post)
      = a :: TDelegate.primedThenExec post ∧
    TDelegate.primedThenExec (TDelegate.Op.prime a :: TDelegate.Op.prime b :: post)
      = TDelegate.primedThenExec (TDelegate.Op.prime b :: post) := by
  refine ⟨?_, TDelegate.primedThenExec_sublist ops, ?_, ?_⟩
  · have h := TDelegate.runOps_recordCall objPtr func ops
      (TDelegate.construct objPtr func) [] rfl rfl
    rw [h]
    simp [TDelegate.construct]
  · simp [TDelegate.primedThenExec]
  · simp [TDelegate.primedThenExec]

namespace EventSystem

variable {TKey : Type} [LinearOrder TKey]

/-- Claim C19.  `subscribe(k1, d)` leaves the entry of every other key as it was.  The
flag it returns is computed from the bindings under `k1` alone: it is true exactly when
none of them equals `d`, so two registries with the same bindings under `k1` return
the same flag.  A delegate bound under `k1` is accepted under another key `k2` that
holds no equal binding, and is then bound under both.  In the registry of the test
`Subscribe` the delegate bound under key 0 is accepted under key 1 and rejected
under key 0. -/
theorem subscribe_touches_and_reads_only_its_key (self other : EventSystem TKey)
    (k1 : TKey) (d : SharedPtr) :
    (∀ k2, k2 ≠ k1 →
      StdMap.find (self.subscribe k1 d).2._eventBindings k2
        = StdMap.find self._eventBindings k2) ∧
    (self.subscribe k1 d).1 = (self.bindings k1).all (fun b => !b.get.eq d.get) ∧
    (other.bindings k1 = self.bindings k1 →
      (other.subscribe k1 d).1 = (self.subscribe k1 d).1) ∧
    (∀ k2, k2 ≠ k1 → d ∈ self.bindings k1 →
      (∀ b ∈ self.bindings k2,
        ¬ (b.get._objPtr = d.get._objPtr ∧ b.get._func = d.get._func)) →
      (self.subscribe k2 d).1 = true ∧
      d ∈ (self.subscribe k2 d).2.bindings k1 ∧
      (self.subscribe k2 d).2.bindings k2 = self.bindings k2 ++ [d]) ∧
    (subscribeTestRegistry.subscribe 1 { ctrl := 1, get := GDelegate.create 100 1 7 }).1
      = true ∧
    (subscribeTestRegistry.subscribe 0 { ctrl := 1, get := GDelegate.create 100 1 7 }).1
      = false := by
  refine ⟨?_, subscribe_fst self k1 d, ?_, ?_, by decide, by decide⟩
  · intro k2 hne
    exact find_subscribe_other self k1 k2 d hne
  · intro h
    rw [subscribe_fst, subscribe_fst, h]
  · intro k2 hne hd hfresh
    obtain ⟨h1, h2⟩ := subscribe_of_no_equal self k2 d hfresh
    refine ⟨h1, ?_, find_eq_some_bindings _ k2 _ h2⟩
    rw [bindings_subscribe_other self k2 k1 d (Ne.symm hne)]
    exact hd

theorem same_delegate_eq_of_noEqualPair (l : List SharedPtr) (h : NoEqualPair l)
    (x y : SharedPtr) (hx : x ∈ l) (hy : y ∈ l) (hsame : SameDelegate x y) : x = y := by
  by_contra hne
  have hsymm : Symmetric (fun a b : SharedPtr => ¬ SameDelegate a b) := by
    intro a b hab hba
    exact hab ⟨hba.1.symm, hba.2.symm⟩
  exact List.Pairwise.forall hsymm h hx hy hne hsame

/-- Claim C20.  In a registry made from the empty one by any sequence of calls, let a
dangling binding `b` be under `key` and let `d` point to a delegate of the same object
address and method.  `subscribe(key, d)` returns false and leaves the registry as it
was; `publish` under `key` still returns false and does not invoke that method at
that address; after `pruneBindings()` the same `subscribe(key, d)` returns true and
`d` is the last binding under `key`. -/
theorem dangling_binding_blocks_equal_subscribe {α σ : Type} (name : String)
    (calls : List (RegistryCall TKey)) (key : TKey) (b d : SharedPtr)
    (use_count : Nat → Nat) (call : Nat → Nat → α → σ → Unit × σ) (typeHash : Nat)
    (vargs : α) (w : σ)
    (hb : b ∈ (RegistryCall.run (construct name) calls).bindings key)
    (hd : b.unique use_count = true)
    (heq : d.get._objPtr = b.get._objPtr ∧ d.get._func = b.get._func) :
    ((RegistryCall.run (construct name) calls).subscribe key d).1 = false ∧
    ((RegistryCall.run (construct name) calls).subscribe key d).2
      = RegistryCall.run (construct name) calls ∧
    (((RegistryCall.run (construct name) calls).subscribe key d).2.publish
        call use_count key typeHash vargs w).1 = false ∧
    (∀ inv ∈ (((RegistryCall.run (construct name) calls).subscribe key d).2.publish
        recordCall use_count key typeHash vargs []).2,
      ¬ (inv.objPtr = d.get._objPtr ∧ inv.func = d.get._func)) ∧
    (((RegistryCall.run (construct name) calls).pruneBindings use_count).subscribe key d).1
      = true ∧
    (((RegistryCall.run (construct name) calls).pruneBindings use_count).subscribe
        key d).2.bindings key
      = ((RegistryCall.run (construct name) calls).bindings key).filter
          (fun b2 => !b2.unique use_count) ++ [d] := by
  have hinv : NoEqualPair ((RegistryCall.run (construct name) calls).bindings key) :=
    noEqualPair_run calls (construct name) (noEqualPair_construct name) key
  generalize RegistryCall.run (construct name) calls = s at hb hinv ⊢
  have honly : ∀ x ∈ s.bindings key,
      (x.get._objPtr = d.get._objPtr ∧ x.get._func = d.get._func) → x = b := by
    intro x hx hsame
    exact same_delegate_eq_of_noEqualPair _ hinv x b hx hb
      ⟨hsame.1.trans heq.1, hsame.2.trans heq.2⟩
  obtain ⟨h1, h2⟩ := subscribe_of_equal s key d ⟨b, hb, heq.1.symm, heq.2.symm⟩
  have hfresh : ∀ x ∈ (s.pruneBindings use_count).bindings key,
      ¬ (x.get._objPtr = d.get._objPtr ∧ x.get._func = d.get._func) := by
    intro x hx hsame
    rw [bindings_pruneBindings, List.mem_filter] at hx
    have hxb := honly x hx.1 hsame
    rw [hxb, hd] at hx
    simp at hx
  obtain ⟨h5, h6⟩ := subscribe_of_no_equal (s.pruneBindings use_count) key d hfresh
  refine ⟨h1, h2, ?_, ?_, h5, ?_⟩
  · rw [h2, publish_fst]
    cases hall : (s.bindings key).all
        (fun b => !b.unique use_count && b.get._typeHashCode == typeHash) with
    | false => rfl
    | true =>
      rw [List.all_eq_true] at hall
      have := hall b hb
      simp [hd] at this
  · intro inv hinvm hsame
    rw [h2, publish_recordCall, List.mem_map] at hinvm
    obtain ⟨x, hx, rfl⟩ := hinvm
    rw [List.mem_filter] at hx
    have hxb := honly x hx.1 hsame
    rw [hxb, hd] at hx
    simp at hx
  · rw [find_eq_some_bindings _ key _ h6, bindings_pruneBindings]

/-- Claim C20 at the test `ScopedListener`: the listener bound under key 0 is destroyed,
and a new listener at the same address subscribes the same method. -/
theorem dangling_binding_blocks_equal_subscribe_witness :
    (({ ctrl := 1, get := GDelegate.create 100 1 7 } : SharedPtr)
        ∈ (RegistryCall.run (construct "EventSystem" : EventSystem Nat)
            [RegistryCall.bind 0 { ctrl := 1, get := GDelegate.create 100 1 7 }]).bindings 0 ∧
      SharedPtr.unique firstListenerGone { ctrl := 1, get := GDelegate.create 100 1 7 } = true) ∧
    ((RegistryCall.run (construct "EventSystem" : EventSystem Nat)
        [RegistryCall.bind 0 { ctrl := 1, get := GDelegate.create 100 1 7 }]).subscribe 0
        { ctrl := 2, get := GDelegate.create 100 1 7 }).1 = false ∧
    (((RegistryCall.run (construct "EventSystem" : EventSystem Nat)
        [RegistryCall.bind 0 { ctrl := 1, get := GDelegate.create 100 1 7 }]).pruneBindings
        firstListenerGone).subscribe 0 { ctrl := 2, get := GDelegate.create 100 1 7 }).1 = true :=
  have h := dangling_binding_blocks_equal_subscribe "EventSystem"
    [RegistryCall.bind (0 : Nat) { ctrl := 1, get := GDelegate.create 100 1 7 }] 0
    { ctrl := 1, get := GDelegate.create 100 1 7 }
    { ctrl := 2, get := GDelegate.create 100 1 7 } firstListenerGone receivedNumbers 7 1
    (fun _ => 0) (by decide) (by decide) ⟨rfl, rfl⟩
  ⟨⟨by decide, by decide⟩, h.1, h.2.2.2.2.1⟩

end EventSystem
